import Mathlib

/-!
# Verification of the splunklib searchcommands protocol runtime

A shallow embedding, in Lean 4, of the chunked-protocol runtime of
`splunklib/searchcommands` (the multi-value field codec, the transport codec,
the buffered record writer, the option parser / getinfo exchange and the
execute record decoder), together with proofs and refutations of the frozen
specification claims.

Strings on the Python side are modelled as `List Char`; machine-level byte
strings in the original are ASCII-compatible here, so the character-level view
is faithful for every input considered.
-/

namespace Splunk

/-! ## Multi-value field codec (internals.py `RecordWriter._encode_value`,
search_command.py `SearchCommand._decode_list`) -/

/-- `item.replace(b'$', b'$$')`: every literal `$` is doubled.  This is the
escaping applied to each list item in `RecordWriter._encode_value`
(internals.py line 634). -/
def escapeDollars : List Char → List Char
  | [] => []
  | c :: t => if c = '$' then '$' :: '$' :: escapeDollars t else c :: escapeDollars t

/-- Python `str.replace('$$', '$')`: leftmost, non-overlapping replacement of
`$$` by `$`, as applied to each regex match in `SearchCommand._decode_list`
(search_command.py line 877). -/
def unescapeDollars : List Char → List Char
  | [] => []
  | [c] => [c]
  | c₁ :: c₂ :: t =>
    if c₁ = '$' ∧ c₂ = '$' then '$' :: unescapeDollars t
    else c₁ :: unescapeDollars (c₂ :: t)

/-- A Python scalar value as accepted by `RecordWriter._encode_value.to_string`
(internals.py lines 604-618): `None`, `bool`, a byte/unicode string, or a
number (modelled by `Int`). -/
inductive PyScalar
  | null
  | boolean (b : Bool)
  | text (s : List Char)
  | num (n : Int)
deriving DecidableEq, Repr

/-- A record field value: a scalar, or a list/tuple of scalars (the record
data model of the runtime: field name → scalar-or-list value). -/
inductive PyValue
  | scalar (s : PyScalar)
  | items (xs : List PyScalar)
deriving DecidableEq, Repr

/-- `RecordWriter._encode_value.to_string` (internals.py lines 604-618):
`None → b''`, `True/False → b't'/b'f'`, strings unchanged, numbers via
`str`. -/
def toBytes : PyScalar → List Char
  | .null => []
  | .boolean b => if b then ['t'] else ['f']
  | .text s => s
  | .num n => (toString n).data

/-- `RecordWriter._encode_value` (internals.py lines 602-636) restricted to the
record data model: returns `(primary, companion)`.  A scalar or singleton list
yields no companion; an empty list yields `(None, None)`; a list of two or more
items yields the newline-joined primary and the `$`-escaped companion produced
by the `reduce` on line 634 followed by `sv[:-1], mv[:-2]`. -/
def encodeValue : PyValue → Option (List Char) × Option (List Char)
  | .scalar s => (some (toBytes s), none)
  | .items [] => (none, none)
  | .items [x] => (some (toBytes x), none)
  | .items xs =>
    let strs := xs.map toBytes
    let r := strs.foldl
      (fun (p : List Char × List Char) v =>
        (p.1 ++ v ++ ['\n'], p.2 ++ escapeDollars v ++ ['$', ';', '$']))
      ([], ['$'])
    (some r.1.dropLast, some (r.2.dropLast.dropLast))

/-! ### The decoder: `_encoded_value = re.compile(r'\$(?P<item>(?:\$\$|[^$])*)\$(?:;|$)')`
and `_decode_list(mv) = [match.replace('$$', '$') for match in findall(mv)]`.

The regex is modelled operationally.  The inner group `(?:\$\$|[^$])*` is
deterministic in what it can consume at each step (`$$` when two dollars
follow, one character when a non-dollar follows, nothing otherwise), so a
backtracking match is: enumerate the stopping points of the greedy inner loop
and close the match at the **largest** stopping point where `\$(?:;|$)`
succeeds.  `findall` scans for non-overlapping matches left to right,
advancing one character past positions where no match starts. -/

/-- The suffixes of the input at which the greedy inner loop
`(?:\$\$|[^$])*` can stop, in order of increasing consumption (the input
itself first, the maximal-consumption suffix last): a `$$` pair or a single
non-`$` character is consumed, a lone `$` stops the loop. -/
def innerStops : List Char → List (List Char)
  | [] => [[]]
  | [c] => if c = '$' then [[c]] else [[c], []]
  | c₁ :: c₂ :: t =>
    if c₁ = '$' then
      if c₂ = '$' then (c₁ :: c₂ :: t) :: innerStops t
      else [c₁ :: c₂ :: t]
    else (c₁ :: c₂ :: t) :: innerStops (c₂ :: t)

/-- Python `re`'s `$` anchor: matches at the end of the string, or just before
a trailing newline. -/
def atEndAnchor : List Char → Bool
  | [] => true
  | [c] => c = '\n'
  | _ => false

/-- Attempt the closing `\$(?:;|$)` of the segment regex at a stopping suffix;
on success return the remainder of the input after the match (the `;`
alternative is tried before the `$` anchor). -/
def closeAt : List Char → Option (List Char)
  | [] => none
  | [c] => if c = '$' then some [] else none
  | c₁ :: c₂ :: t =>
    if c₁ = '$' then
      if c₂ = ';' then some t
      else if atEndAnchor (c₂ :: t) then some (c₂ :: t) else none
    else none

/-- Match the segment body and closing delimiter against `t` (the text after
the opening `\$`): take the largest stopping point of the greedy inner loop at
which the close succeeds, returning the captured group and the rest of the
input. -/
def findSegment (t : List Char) : Option (List Char × List Char) :=
  ((innerStops t).filterMap
    (fun u => (closeAt u).map (fun r => (t.take (t.length - u.length), r)))).getLast?

/-- Match the whole segment regex `\$(?:\$\$|[^$])*\$(?:;|$)` at the start of
the input. -/
def matchSegment : List Char → Option (List Char × List Char)
  | [] => none
  | c :: t => if c = '$' then findSegment t else none

/-- `re.findall` for the segment regex: scan left to right, at each position
either take the match starting there and continue after it, or advance one
character.  `fuel` bounds the recursion; `s.length` is always sufficient. -/
def scanAux : Nat → List Char → List (List Char)
  | 0, _ => []
  | _ + 1, [] => []
  | fuel + 1, c :: t =>
    match matchSegment (c :: t) with
    | some (g, rest) => g :: scanAux fuel rest
    | none => scanAux fuel t

/-- `SearchCommand._encoded_value.findall(mv)`. -/
def pyFindall (s : List Char) : List (List Char) :=
  scanAux s.length s

/-- `SearchCommand._decode_list` (search_command.py lines 875-879). -/
def decodeList (mv : List Char) : List (List Char) :=
  (pyFindall mv).map unescapeDollars

example : decodeList "$a$;$b$".data = ["a".data, "b".data] := by decide
example : decodeList "$$;$$".data = [[], []] := by decide
example : decodeList "$a$$$;$x$".data = ["a$".data, "x".data] := by decide
example : decodeList "x$a$".data = ["a".data] := by decide
example : decodeList "abc".data = [] := by decide
example : decodeList "$x".data = [] := by decide
example : (encodeValue (.items [.text "a".data, .text "b$".data])).2
    = some "$a$;$b$$$".data := by decide

/-! ### Roundtrip lemmas for the multi-value codec -/

/-- The wire form of an encoded non-empty list: `$e₁$;$e₂$;…;$eₙ$` with each
item `$`-escaped.  Proved below to agree with the `reduce`/`[:-2]` form used
by `_encode_value`. -/
def encMvList : List (List Char) → List Char
  | [] => []
  | [x] => '$' :: (escapeDollars x ++ ['$'])
  | x :: y :: t => '$' :: (escapeDollars x ++ '$' :: ';' :: encMvList (y :: t))

/-- The item-by-item tail built by the fold in `_encode_value`:
`e₁$;$e₂$;$…eₙ$;$`. -/
def mvBody : List (List Char) → List Char
  | [] => []
  | v :: r => escapeDollars v ++ '$' :: ';' :: '$' :: mvBody r

theorem unescape_escape (x : List Char) : unescapeDollars (escapeDollars x) = x := by
  induction x with
  | nil => rfl
  | cons c t ih =>
    by_cases hc : c = '$'
    · subst hc
      simp [escapeDollars, unescapeDollars, ih]
    · simp only [escapeDollars, if_neg hc]
      cases he : escapeDollars t with
      | nil =>
        have ht : t = [] := by
          cases t with
          | nil => rfl
          | cons c' t' =>
            by_cases h' : c' = '$' <;> simp [escapeDollars, h'] at he
        subst ht
        simp [unescapeDollars]
      | cons c₂ t' =>
        rw [he] at ih
        show (if c = '$' ∧ c₂ = '$' then '$' :: unescapeDollars t'
          else c :: unescapeDollars (c₂ :: t')) = c :: t
        rw [if_neg (show ¬(c = '$' ∧ c₂ = '$') from fun h => hc h.1), ih]

theorem innerStops_cons_ne (c : Char) (t : List Char) (hc : c ≠ '$') :
    innerStops (c :: t) = (c :: t) :: innerStops t := by
  cases t with
  | nil => simp [innerStops, hc]
  | cons c₂ t' => simp [innerStops, hc]

theorem innerStops_pair (t : List Char) :
    innerStops ('$' :: '$' :: t) = ('$' :: '$' :: t) :: innerStops t := by
  simp [innerStops]

theorem innerStops_dollar_stop (u : List Char) (hu : u.head? ≠ some '$') :
    innerStops ('$' :: u) = ['$' :: u] := by
  cases u with
  | nil => simp [innerStops]
  | cons c₂ t =>
    have hc : c₂ ≠ '$' := fun h => hu (by simp [h])
    simp [innerStops, hc]

/-- Scanning the escape of `x` followed by a closing `$` (with a non-`$`
continuation) stops exactly at that closing `$`, which is the final stopping
point. -/
theorem innerStops_escape_append (x u : List Char) (hu : u.head? ≠ some '$') :
    ∃ init, innerStops (escapeDollars x ++ '$' :: u) = init ++ [('$' :: u)] := by
  induction x with
  | nil =>
    exact ⟨[], by simpa using innerStops_dollar_stop u hu⟩
  | cons c t ih =>
    obtain ⟨init, hinit⟩ := ih
    by_cases hc : c = '$'
    · subst hc
      refine ⟨('$' :: '$' :: (escapeDollars t ++ '$' :: u)) :: init, ?_⟩
      rw [show escapeDollars ('$' :: t) = '$' :: '$' :: escapeDollars t by
        simp [escapeDollars]]
      rw [List.cons_append, List.cons_append, innerStops_pair, hinit]
      simp
    · refine ⟨(c :: (escapeDollars t ++ '$' :: u)) :: init, ?_⟩
      rw [show escapeDollars (c :: t) = c :: escapeDollars t by
        simp [escapeDollars, hc]]
      rw [List.cons_append, innerStops_cons_ne c _ hc, hinit]
      simp

theorem closeAt_nil : closeAt ['$'] = some [] := rfl

theorem closeAt_semi (v : List Char) : closeAt ('$' :: ';' :: v) = some v := by
  simp [closeAt]

theorem findSegment_escape (x u r : List Char) (hu : u.head? ≠ some '$')
    (hclose : closeAt ('$' :: u) = some r) :
    findSegment (escapeDollars x ++ '$' :: u) = some (escapeDollars x, r) := by
  obtain ⟨init, hinit⟩ := innerStops_escape_append x u hu
  unfold findSegment
  rw [hinit, List.filterMap_append]
  have hlen : (escapeDollars x ++ '$' :: u).length - ('$' :: u).length
      = (escapeDollars x).length := by
    simp
  have htake : (escapeDollars x ++ '$' :: u).take (escapeDollars x).length
      = escapeDollars x := List.take_left _ _
  simp [hclose, hlen, htake]

theorem matchSegment_escape_last (x : List Char) :
    matchSegment ('$' :: (escapeDollars x ++ ['$'])) = some (escapeDollars x, []) := by
  have : findSegment (escapeDollars x ++ '$' :: []) = some (escapeDollars x, []) :=
    findSegment_escape x [] [] (by simp) closeAt_nil
  simpa [matchSegment] using this

theorem matchSegment_escape_mid (x v : List Char) :
    matchSegment ('$' :: (escapeDollars x ++ '$' :: ';' :: v))
      = some (escapeDollars x, v) := by
  have : findSegment (escapeDollars x ++ '$' :: (';' :: v))
      = some (escapeDollars x, v) :=
    findSegment_escape x (';' :: v) v (by simp) (closeAt_semi v)
  simpa [matchSegment] using this

theorem scanAux_encMvList : ∀ (xs : List (List Char)), xs ≠ [] →
    ∀ fuel, (encMvList xs).length ≤ fuel →
    scanAux fuel (encMvList xs) = xs.map escapeDollars
  | [], h, _, _ => absurd rfl h
  | [x], _, fuel, hfuel => by
    have h2 : 1 ≤ fuel := le_trans (by simp [encMvList]) hfuel
    obtain ⟨f, rfl⟩ := Nat.exists_eq_add_of_le h2
    simp only [encMvList, Nat.add_comm 1 f, scanAux, matchSegment_escape_last]
    cases f <;> simp [scanAux]
  | x :: y :: t, _, fuel, hfuel => by
    have h2 : 1 ≤ fuel := le_trans (by simp [encMvList]) hfuel
    obtain ⟨f, rfl⟩ := Nat.exists_eq_add_of_le h2
    have hrest : (encMvList (y :: t)).length ≤ f := by
      have : (encMvList (x :: y :: t)).length
          = (escapeDollars x).length + 3 + (encMvList (y :: t)).length := by
        simp [encMvList]; ring
      omega
    simp only [encMvList, Nat.add_comm 1 f, scanAux, matchSegment_escape_mid]
    rw [scanAux_encMvList (y :: t) (by simp) f hrest]
    rfl

theorem pyFindall_encMvList (xs : List (List Char)) (h : xs ≠ []) :
    pyFindall (encMvList xs) = xs.map escapeDollars :=
  scanAux_encMvList xs h _ le_rfl

theorem map_unescape_escape (l : List (List Char)) :
    List.map unescapeDollars (List.map escapeDollars l) = l := by
  induction l with
  | nil => rfl
  | cons a t ih => simp [unescape_escape, ih]

theorem decodeList_encMvList (xs : List (List Char)) (h : xs ≠ []) :
    decodeList (encMvList xs) = xs := by
  unfold decodeList
  rw [pyFindall_encMvList xs h, map_unescape_escape]

theorem foldl_pair_snd (strs : List (List Char)) : ∀ a b : List Char,
    (strs.foldl
      (fun (p : List Char × List Char) v =>
        (p.1 ++ v ++ ['\n'], p.2 ++ escapeDollars v ++ ['$', ';', '$']))
      (a, b)).2
    = strs.foldl (fun m v => m ++ escapeDollars v ++ ['$', ';', '$']) b := by
  induction strs with
  | nil => intro a b; rfl
  | cons v r ih =>
    intro a b
    simp only [List.foldl_cons]
    exact ih _ _

theorem foldl_mv_eq (strs : List (List Char)) : ∀ b : List Char,
    strs.foldl (fun m v => m ++ escapeDollars v ++ ['$', ';', '$']) b
      = b ++ mvBody strs := by
  induction strs with
  | nil => intro b; simp [mvBody]
  | cons v r ih =>
    intro b
    simp only [List.foldl_cons, ih, mvBody]
    simp

theorem encMv_body : ∀ xs : List (List Char), xs ≠ [] →
    '$' :: mvBody xs = encMvList xs ++ [';', '$']
  | [], h => absurd rfl h
  | [x], _ => by simp [mvBody, encMvList]
  | x :: y :: t, _ => by
    have ih := encMv_body (y :: t) (by simp)
    show '$' :: (escapeDollars x ++ '$' :: ';' :: '$' :: mvBody (y :: t))
        = ('$' :: (escapeDollars x ++ '$' :: ';' :: encMvList (y :: t))) ++ [';', '$']
    rw [show '$' :: (escapeDollars x ++ '$' :: ';' :: '$' :: mvBody (y :: t))
        = '$' :: escapeDollars x ++ ['$', ';'] ++ ('$' :: mvBody (y :: t)) by simp,
      ih]
    simp

theorem map_toBytes_text (l : List (List Char)) :
    List.map toBytes (List.map PyScalar.text l) = l := by
  induction l with
  | nil => rfl
  | cons a t ih => simp [toBytes, ih]

theorem encodeValue_companion (x y : List Char) (t : List (List Char)) :
    (encodeValue (.items (List.map PyScalar.text (x :: y :: t)))).2
      = some (encMvList (x :: y :: t)) := by
  have hmv : ('$' :: mvBody (x :: y :: t)).dropLast.dropLast
      = encMvList (x :: y :: t) := by
    rw [encMv_body (x :: y :: t) (by simp),
      show encMvList (x :: y :: t) ++ [';', '$']
        = (encMvList (x :: y :: t) ++ [';']) ++ ['$'] by simp,
      List.dropLast_concat, List.dropLast_concat]
  simp only [List.map_cons] at *
  simp only [encodeValue, map_toBytes_text, List.map_cons]
  rw [foldl_pair_snd, foldl_mv_eq]
  simpa using congrArg some hmv

theorem scanAux_no_dollar : ∀ (fuel : Nat) (s : List Char), ('$' : Char) ∉ s →
    scanAux fuel s = []
  | 0, _, _ => rfl
  | _ + 1, [], _ => rfl
  | fuel + 1, c :: t, h => by
    have hc : c ≠ '$' := by
      intro e
      exact h (by simp [e])
    have ht : ('$' : Char) ∉ t := fun m => h (List.mem_cons_of_mem _ m)
    simp only [scanAux]
    rw [show matchSegment (c :: t) = none by simp [matchSegment, hc]]
    exact scanAux_no_dollar fuel t ht

/-- A string is a well-formed encoded multi-value sequence: the encoding of
some non-empty list of items. -/
def isEncodedMv (s : List Char) : Prop :=
  ∃ ys : List (List Char), ys ≠ [] ∧ s = encMvList ys

theorem encMvList_head : ∀ (ys : List (List Char)), ys ≠ [] →
    (encMvList ys).head? = some '$'
  | [], h => absurd rfl h
  | [_], _ => rfl
  | _ :: _ :: _, _ => rfl

/-! ## Claim theorems for the multi-value codec -/

/-- C1: for every list of at least two NUL-free strings, decoding the
companion column produced by `RecordWriter._encode_value` with
`SearchCommand._decode_list` returns the original list. -/
theorem claim_C1_mv_roundtrip (xs : List (List Char)) (hlen : 2 ≤ xs.length)
    (_hnul : ∀ x ∈ xs, ('\x00' : Char) ∉ x) :
    ∃ mv, (encodeValue (.items (xs.map PyScalar.text))).2 = some mv
      ∧ decodeList mv = xs := by
  match xs, hlen with
  | x :: y :: t, _ =>
    exact ⟨encMvList (x :: y :: t), encodeValue_companion x y t,
      decodeList_encMvList _ (by simp)⟩

/-- Witness for C1 at `xs = ["a", "b"]`. -/
theorem claim_C1_mv_roundtrip_witness :
    2 ≤ ([['a'], ['b']] : List (List Char)).length
    ∧ (∀ x ∈ ([['a'], ['b']] : List (List Char)), ('\x00' : Char) ∉ x)
    ∧ ∃ mv, (encodeValue (.items (([['a'], ['b']] : List (List Char)).map
          PyScalar.text))).2 = some mv
        ∧ decodeList mv = [['a'], ['b']] :=
  ⟨by decide, by decide, claim_C1_mv_roundtrip [['a'], ['b']] (by decide) (by decide)⟩

/-- C7 counterexample: `x$a$` is not a well-formed sequence of `$…$` segments,
yet `_decode_list` returns the non-empty result `["a"]`, not the empty
result claimed. -/
theorem claim_C7_counterexample :
    ¬ isEncodedMv "x$a$".data
    ∧ decodeList "x$a$".data = ["a".data]
    ∧ ["a".data] ≠ ([] : List (List Char)) := by
  refine ⟨?_, by decide, by decide⟩
  rintro ⟨ys, hne, heq⟩
  have h := encMvList_head ys hne
  rw [← heq] at h
  exact absurd h (by decide)

/-- C7 (amended): `_decode_list` is a total function — it terminates on every
input and signals no error (it is definable as a total Lean function); on
malformed input it returns the possibly-empty list of well-formed `$…$`
segments found, skipping malformed stretches; in particular an input with no
`$` at all yields the empty list. -/
theorem claim_C7_decode_total (s : List Char) (h : ('$' : Char) ∉ s) :
    decodeList s = [] := by
  unfold decodeList pyFindall
  rw [scanAux_no_dollar s.length s h]
  rfl

/-- Witness for the amended C7 at `s = "abc"`. -/
theorem claim_C7_decode_total_witness :
    (('$' : Char) ∉ "abc".data) ∧ decodeList "abc".data = [] :=
  ⟨by decide, claim_C7_decode_total "abc".data (by decide)⟩

/-! ## Transport codec: `SearchCommand._read_chunk` (search_command.py lines
902-942) with `_header = re.compile(r'chunked\s+1.0\s*,\s*(\d+)\s*,\s*(\d+)\s*\n')`.

The input stream is a `List Char`.  Python's `file.readline()` returns up to
and including the first newline (or the remainder at end of file, or the
empty string at EOF), and `file.read(n)` returns *up to* `n` bytes — fewer at
end of file — without raising.  The metadata decoder (`MetadataDecoder`, a
`json.JSONDecoder`) is an external-library dependency and is passed in as a
function returning `none` exactly when decoding raises. -/

/-- Python `file.readline()`: the first line including its newline, plus the
remainder. -/
def readline : List Char → List Char × List Char
  | [] => ([], [])
  | c :: t =>
    if c = '\n' then ([c], t)
    else
      let r := readline t
      (c :: r.1, r.2)

/-- Python's `\s` class for `str` patterns: space, tab, newline, carriage
return, form feed, vertical tab. -/
def isPySpace (c : Char) : Bool :=
  c = ' ' ∨ c = '\t' ∨ c = '\n' ∨ c = '\r' ∨ c = '\x0b' ∨ c = '\x0c'

/-- Consume an exact literal, returning the remainder. -/
def stripLit : List Char → List Char → Option (List Char)
  | [], s => some s
  | _ :: _, [] => none
  | c :: p, x :: s => if x = c then stripLit p s else none

/-- `int()` on a decimal digit string. -/
def digitsToNat (d : List Char) : Nat :=
  d.foldl (fun n c => n * 10 + (c.toNat - '0'.toNat)) 0

/-- The trailing `\s*\n` of the header pattern: succeeds iff a run of
whitespace characters is followed by a newline (the greedy `\s*` backtracks
to leave the `\n`; since `\n` is itself whitespace this is equivalent to
meeting a newline while scanning the leading whitespace run). -/
def wsThenNewline : List Char → Bool
  | [] => false
  | c :: t => if c = '\n' then true else if isPySpace c then wsThenNewline t else false

/-- `re.match` of `chunked\s+1.0\s*,\s*(\d+)\s*,\s*(\d+)\s*\n` against the
header line (note the unescaped `.` in `1.0`, which matches any character).
All quantified classes are disjoint from their successors, so greedy matching
is deterministic. -/
def parseHeader (h : List Char) : Option (Nat × Nat) := do
  let s₀ ← stripLit "chunked".data h
  let ws := s₀.takeWhile isPySpace
  if ws.isEmpty then none
  else
    match s₀.dropWhile isPySpace with
    | a :: _ :: c :: r =>
      if a = '1' ∧ c = '0' then
        let s₃ := r.dropWhile isPySpace
        let s₄ ← stripLit [','] s₃
        let s₅ := s₄.dropWhile isPySpace
        let d₁ := s₅.takeWhile Char.isDigit
        if d₁.isEmpty then none
        else
          let s₆ := s₅.dropWhile Char.isDigit
          let s₇ ← stripLit [','] (s₆.dropWhile isPySpace)
          let s₈ := s₇.dropWhile isPySpace
          let d₂ := s₈.takeWhile Char.isDigit
          if d₂.isEmpty then none
          else
            let s₉ := s₈.dropWhile Char.isDigit
            if wsThenNewline s₉ then some (digitsToNat d₁, digitsToNat d₂) else none
      else none
    | _ => none

/-- The value of `SearchCommand._read_chunk`: end of stream (`None` in
Python), or a decoded metadata object with the body bytes. -/
inductive ChunkOut (M : Type)
  | eos
  | chunk (metadata : M) (body : List Char)
deriving DecidableEq

/-- `SearchCommand._read_chunk` (search_command.py lines 902-942): read the
header line (empty → end of stream), match the header regex (mismatch →
RuntimeError), read the declared number of metadata bytes (`read` returns
fewer at end of file, without error), decode them (failure → RuntimeError),
read the declared number of body bytes, and return the chunk.  No check that
the reads returned the declared byte counts. -/
def readChunk {M : Type} (decodeMeta : List Char → Option M) (s : List Char) :
    Except String (ChunkOut M) :=
  let hr := readline s
  if hr.1 = [] then .ok .eos
  else
    match parseHeader hr.1 with
    | none => .error "Failed to parse transport header"
    | some (mlen, blen) =>
      match decodeMeta (hr.2.take mlen) with
      | none => .error "Failed to parse metadata"
      | some m => .ok (.chunk m ((hr.2.drop mlen).take blen))

/-- Models `json.JSONDecoder().decode` only as far as the single metadata
input appearing in the C2 counterexample requires: the two-character encoding
of the empty object decodes successfully (as `json.loads` does); any other
input is rejected (conservative, and irrelevant to the counterexample). -/
def emptyObjMeta : List Char → Option Unit :=
  fun s => if s = ['\x7b', '\x7d'] then some () else none

/-- The header line written for declared metadata and body lengths rendered
by the given digit strings. -/
def mkChunkHeader (d₁ d₂ : List Char) : List Char :=
  "chunked 1.0,".data ++ d₁ ++ [','] ++ d₂ ++ ['\n']

example : readChunk emptyObjMeta
    ("chunked 1.0,2,5\n".data ++ ['\x7b', '\x7d'] ++ "abc".data)
    = .ok (.chunk () "abc".data) := rfl

theorem readline_append (l r : List Char) (h : ('\n' : Char) ∉ l) :
    readline (l ++ '\n' :: r) = (l ++ ['\n'], r) := by
  induction l with
  | nil => simp [readline]
  | cons c t ih =>
    have hc : c ≠ '\n' := fun e => h (by simp [e])
    have ht : ('\n' : Char) ∉ t := fun m => h (List.mem_cons_of_mem _ m)
    simp [readline, hc, ih ht]

theorem takeWhile_append_of_false (p : Char → Bool) :
    ∀ (l : List Char) (c : Char) (r : List Char),
    (∀ x ∈ l, p x = true) → p c = false → ((l ++ c :: r).takeWhile p = l
      ∧ (l ++ c :: r).dropWhile p = c :: r)
  | [], c, r, _, hc => by simp [List.takeWhile, List.dropWhile, hc]
  | x :: t, c, r, hl, hc => by
    have hx : p x = true := hl x (by simp)
    have := takeWhile_append_of_false p t c r (fun y hy => hl y (by simp [hy])) hc
    simp [List.takeWhile_cons, List.dropWhile_cons, hx, this.1, this.2]

theorem digit_not_space (c : Char) (h : c.isDigit = true) : isPySpace c = false := by
  cases hb : isPySpace c
  · rfl
  · exfalso
    unfold isPySpace at hb
    simp only [Bool.or_eq_true, decide_eq_true_eq] at hb
    rcases hb with h' | h' | h' | h' | h' | h' <;>
      (subst h'; exact absurd h (by decide))

theorem parseHeader_mkChunkHeader (d₁ d₂ : List Char)
    (hd₁ : ∀ c ∈ d₁, c.isDigit = true) (hne₁ : d₁ ≠ [])
    (hd₂ : ∀ c ∈ d₂, c.isDigit = true) (hne₂ : d₂ ≠ []) :
    parseHeader (mkChunkHeader d₁ d₂) = some (digitsToNat d₁, digitsToNat d₂) := by
  obtain ⟨a₁, t₁, rfl⟩ : ∃ a t, d₁ = a :: t := by
    cases d₁ with
    | nil => exact absurd rfl hne₁
    | cons a t => exact ⟨a, t, rfl⟩
  obtain ⟨a₂, t₂, rfl⟩ : ∃ a t, d₂ = a :: t := by
    cases d₂ with
    | nil => exact absurd rfl hne₂
    | cons a t => exact ⟨a, t, rfl⟩
  have e : mkChunkHeader (a₁ :: t₁) (a₂ :: t₂)
      = 'c' :: 'h' :: 'u' :: 'n' :: 'k' :: 'e' :: 'd' :: ' ' :: '1' :: '.' :: '0' :: ','
        :: ((a₁ :: t₁) ++ ',' :: ((a₂ :: t₂) ++ ['\n'])) := by
    unfold mkChunkHeader
    rw [show "chunked 1.0,".data
        = ['c', 'h', 'u', 'n', 'k', 'e', 'd', ' ', '1', '.', '0', ','] from rfl]
    simp
  have hspan₁ := takeWhile_append_of_false Char.isDigit (a₁ :: t₁) ','
    ((a₂ :: t₂) ++ ['\n']) hd₁ (by decide)
  have hspan₂ := takeWhile_append_of_false Char.isDigit (a₂ :: t₂) '\n' [] hd₂ (by decide)
  have hda₁ : isPySpace a₁ = false := digit_not_space a₁ (hd₁ a₁ (by simp))
  have hda₂ : isPySpace a₂ = false := digit_not_space a₂ (hd₂ a₂ (by simp))
  rw [e]
  unfold parseHeader
  rw [show stripLit "chunked".data
      ('c' :: 'h' :: 'u' :: 'n' :: 'k' :: 'e' :: 'd' :: ' ' :: '1' :: '.' :: '0' :: ','
        :: ((a₁ :: t₁) ++ ',' :: ((a₂ :: t₂) ++ ['\n'])))
      = some (' ' :: '1' :: '.' :: '0' :: ','
        :: ((a₁ :: t₁) ++ ',' :: ((a₂ :: t₂) ++ ['\n']))) from rfl]
  simp only [Option.bind_eq_bind, Option.some_bind]
  rw [show (' ' :: '1' :: '.' :: '0' :: ','
        :: ((a₁ :: t₁) ++ ',' :: ((a₂ :: t₂) ++ ['\n']))).takeWhile isPySpace
      = [' '] from rfl]
  rw [show (' ' :: '1' :: '.' :: '0' :: ','
        :: ((a₁ :: t₁) ++ ',' :: ((a₂ :: t₂) ++ ['\n']))).dropWhile isPySpace
      = '1' :: '.' :: '0' :: ','
        :: ((a₁ :: t₁) ++ ',' :: ((a₂ :: t₂) ++ ['\n'])) from rfl]
  rw [show ([' '] : List Char).isEmpty = false from rfl, if_neg Bool.false_ne_true]
  dsimp only
  rw [if_pos (⟨rfl, rfl⟩ : ('1' : Char) = '1' ∧ ('0' : Char) = '0')]
  rw [show (',' :: ((a₁ :: t₁) ++ ',' :: ((a₂ :: t₂) ++ ['\n']))).dropWhile isPySpace
      = ',' :: ((a₁ :: t₁) ++ ',' :: ((a₂ :: t₂) ++ ['\n'])) from rfl]
  rw [show stripLit [','] (',' :: ((a₁ :: t₁) ++ ',' :: ((a₂ :: t₂) ++ ['\n'])))
      = some ((a₁ :: t₁) ++ ',' :: ((a₂ :: t₂) ++ ['\n'])) from rfl]
  simp only [Option.some_bind]
  rw [show ((a₁ :: t₁) ++ ',' :: ((a₂ :: t₂) ++ ['\n'])).dropWhile isPySpace
      = (a₁ :: t₁) ++ ',' :: ((a₂ :: t₂) ++ ['\n']) by
    simp [List.cons_append, List.dropWhile_cons, hda₁]]
  rw [hspan₁.1, hspan₁.2]
  rw [show (a₁ :: t₁).isEmpty = false from rfl, if_neg Bool.false_ne_true]
  rw [show (',' :: ((a₂ :: t₂) ++ ['\n'])).dropWhile isPySpace
      = ',' :: ((a₂ :: t₂) ++ ['\n']) from rfl]
  rw [show stripLit [','] (',' :: ((a₂ :: t₂) ++ ['\n']))
      = some ((a₂ :: t₂) ++ ['\n']) from rfl]
  simp only [Option.some_bind]
  rw [show ((a₂ :: t₂) ++ ['\n']).dropWhile isPySpace
      = (a₂ :: t₂) ++ ['\n'] by simp [List.cons_append, List.dropWhile_cons, hda₂]]
  rw [hspan₂.1, hspan₂.2]
  rw [show (a₂ :: t₂).isEmpty = false from rfl, if_neg Bool.false_ne_true]
  rw [show wsThenNewline ['\n'] = true from rfl, if_pos rfl]

/-- C2 counterexample: the stream declares a 5-byte body after a 2-byte
metadata block but supplies only 3 body bytes; `_read_chunk` returns the
truncated chunk successfully instead of raising a framing error. -/
theorem claim_C2_counterexample :
    readChunk emptyObjMeta
        ("chunked 1.0,2,5\n".data ++ ['\x7b', '\x7d'] ++ "abc".data)
      = .ok (.chunk () "abc".data)
    ∧ "abc".data.length < 5 := by
  exact ⟨rfl, by decide⟩

/-- C2 (amended): `_read_chunk` performs no byte-count verification.  For any
stream consisting of a well-formed header that declares exactly the available
metadata bytes and more body bytes than remain, it returns — without any
error — a chunk whose body is exactly the remaining bytes, shorter than
declared.  (An error on truncated input arises only when the truncated
metadata fails structured-data decoding.) -/
theorem claim_C2_read_chunk_no_length_check {M : Type}
    (dm : List Char → Option M) (m : M) (d₁ d₂ ms bs : List Char)
    (hd₁ : ∀ c ∈ d₁, c.isDigit = true) (hne₁ : d₁ ≠ [])
    (hd₂ : ∀ c ∈ d₂, c.isDigit = true) (hne₂ : d₂ ≠ [])
    (hms : digitsToNat d₁ = ms.length) (hshort : bs.length < digitsToNat d₂)
    (hdm : dm ms = some m) :
    readChunk dm (mkChunkHeader d₁ d₂ ++ ms ++ bs) = .ok (.chunk m bs) := by
  have hnl : ('\n' : Char) ∉ "chunked 1.0,".data ++ d₁ ++ [','] ++ d₂ := by
    intro hmem
    simp only [List.mem_append] at hmem
    rcases hmem with ((hp | h1) | hc) | h2
    · revert hp; decide
    · exact absurd (hd₁ '\n' h1) (by decide)
    · revert hc; decide
    · exact absurd (hd₂ '\n' h2) (by decide)
  have hassoc : mkChunkHeader d₁ d₂ ++ ms ++ bs
      = ("chunked 1.0,".data ++ d₁ ++ [','] ++ d₂) ++ '\n' :: (ms ++ bs) := by
    unfold mkChunkHeader
    simp
  have hline : readline (mkChunkHeader d₁ d₂ ++ ms ++ bs)
      = (mkChunkHeader d₁ d₂, ms ++ bs) := by
    rw [hassoc, readline_append _ _ hnl]
    unfold mkChunkHeader
    simp
  have hne : mkChunkHeader d₁ d₂ ≠ [] := by
    unfold mkChunkHeader
    simp
  have htake : (ms ++ bs).take (digitsToNat d₁) = ms := by
    rw [hms]; exact List.take_left ms bs
  have hdrop : (ms ++ bs).drop (digitsToNat d₁) = bs := by
    rw [hms]; exact List.drop_left ms bs
  unfold readChunk
  rw [hline]
  dsimp only
  rw [if_neg hne, parseHeader_mkChunkHeader d₁ d₂ hd₁ hne₁ hd₂ hne₂]
  dsimp only
  rw [htake, hdm]
  dsimp only
  rw [hdrop, List.take_of_length_le (Nat.le_of_lt hshort)]

/-- Witness for the amended C2 at the concrete truncated stream
`chunked 1.0,2,5\n{}abc`. -/
theorem claim_C2_read_chunk_no_length_check_witness :
    readChunk emptyObjMeta (mkChunkHeader ['2'] ['5'] ++ ['\x7b', '\x7d'] ++ "abc".data)
      = .ok (.chunk () "abc".data) :=
  claim_C2_read_chunk_no_length_check emptyObjMeta () ['2'] ['5'] ['\x7b', '\x7d']
    "abc".data (by decide) (by decide) (by decide) (by decide) (by decide) (by decide)
    (by decide)

/-! ## Buffered output writer: `RecordWriter` / `RecordWriterV2`
(internals.py lines 542-745).

The writer state carries the CSV row buffer as a list of rows (each cell an
`Option` byte string: `csv.writer` renders `None` as an empty cell), the
inspector ordered dictionary, the record/chunk/total counters and the
`_finished` flag.  Emitted chunks are observed structurally: metadata as the
ordered mapping passed to `_write_chunk` after dropping `None`-valued fields,
body as the buffered rows. -/

/-- A value stored in the inspector ordered dictionary: the `messages` list or
a `metric.<name>` entry (a `SearchMetric`-style tuple). -/
inductive InspVal
  | messages (msgs : List (String × String))
  | metric (value : List (Option Int))
deriving DecidableEq

/-- A metadata value of an outbound chunk. -/
inductive MetaVal
  | inspector (entries : List (String × InspVal))
  | flag (b : Bool)
  | raw (s : String)
deriving DecidableEq

/-- `OrderedDict(ifilter(lambda x: x[1] is not None, metadata.iteritems()))`
(internals.py line 727): drop the fields holding the absent sentinel,
preserving order. -/
def dropAbsent (md : List (String × Option MetaVal)) : List (String × MetaVal) :=
  md.filterMap (fun kv => kv.2.map (fun v => (kv.1, v)))

/-- One chunk as emitted by `RecordWriterV2._write_chunk`, observed
structurally: the `None`-filtered metadata mapping and the body rows. -/
structure V2Chunk where
  meta : List (String × MetaVal)
  body : List (List (Option (List Char)))
deriving DecidableEq

/-- The state of a `RecordWriterV2` (internals.py lines 544-558), plus the
list of chunks written to `ofile` so far. -/
structure WriterState where
  maxresultrows : Nat
  fieldnames : Option (List (List Char))
  buffer : List (List (Option (List Char)))
  inspector : List (String × InspVal)
  recordCount : Nat
  chunkCount : Nat
  totalCount : Nat
  finishedFlag : Bool
  out : List V2Chunk
deriving DecidableEq

/-- `RecordWriterV2(ofile, maxresultrows)` freshly constructed. -/
def freshWriter (maxrr : Nat) : WriterState :=
  ⟨maxrr, none, [], [], 0, 0, 0, false, []⟩

/-- `RecordWriter._ensure_validity` (internals.py lines 638-641): on a
finished writer the inner `assert` fires when records or inspector entries
remain, otherwise `RuntimeError` is raised. -/
def ensureValidity (w : WriterState) : Except String Unit :=
  if w.finishedFlag then
    if w.recordCount = 0 ∧ w.inspector = [] then
      .error "I/O operation on closed record writer"
    else .error "AssertionError: record_count == 0 and len(inspector) == 0"
  else .ok ()

/-- `RecordWriterV2._write_chunk` (internals.py lines 724-743), observed
structurally.  A truthy (non-empty) metadata mapping is JSON-encoded after
dropping absent fields; the encoding of a mapping is never empty (at least
`\x7b\x7d`), so the chunk is always written in that case.  A falsy metadata
mapping leaves `metadata_length = 0`: with an empty body nothing is written;
with a non-empty body the start line is written and then the *unencoded*
mapping is passed to `ofile.write`, which raises `TypeError` in Python 2. -/
def structWriteChunk (metadata : List (String × Option MetaVal))
    (body : List (List (Option (List Char)))) : Except String (Option V2Chunk) :=
  if metadata = [] then
    if body = [] then .ok none
    else .error "TypeError: expected a character buffer object"
  else .ok (some ⟨dropAbsent metadata, body⟩)

/-- The metadata mapping built by `RecordWriterV2.flush` (internals.py lines
698-701): inspector (or the absent sentinel when empty), `finished`,
`partial`. -/
def flushMeta (w : WriterState) (fin par : Option Bool) :
    List (String × Option MetaVal) :=
  [("inspector", if w.inspector ≠ [] then some (.inspector w.inspector) else none),
   ("finished", fin.map .flag),
   ("partial", par.map .flag)]

/-- `RecordWriterV2.flush` (internals.py lines 687-706), including the
`RecordWriter.flush` assertions (lines 568-572): both flags set at once is an
assertion error; a finished writer raises; a chunk is emitted only when
records or inspector entries are buffered, after which buffer, inspector,
record counter and fieldnames are cleared; finally `_finished` is set iff
`finished is True`. -/
def flushV2 (w : WriterState) (fin par : Option Bool) : Except String WriterState :=
  if fin.isSome ∧ par.isSome then
    .error "AssertionError: finished is None or partial is None"
  else
    match ensureValidity w with
    | .error e => .error e
    | .ok _ =>
      if w.recordCount > 0 ∨ w.inspector ≠ [] then
        match structWriteChunk (flushMeta w fin par) w.buffer with
        | .error e => .error e
        | .ok c =>
          .ok { w with
            totalCount := w.totalCount + w.recordCount,
            chunkCount := w.chunkCount + 1,
            out := w.out ++ c.toList,
            buffer := [], inspector := [], recordCount := 0, fieldnames := none,
            finishedFlag := decide (fin = some true) }
      else .ok { w with finishedFlag := decide (fin = some true) }

/-- The `__mv_` companion-column marker. -/
def mvMark : List Char := "__mv_".data

/-- A record: an ordered mapping from field name to value. -/
abbrev PyRecord := List (List Char × PyValue)

/-- `record.get(fieldname, None)`. -/
def recordGet (r : PyRecord) (k : List Char) : PyValue :=
  match r.find? (fun kv => decide (kv.1 = k)) with
  | some kv => kv.2
  | none => .scalar .null

/-- The lazily-emitted header row: field names interleaved with their `__mv_`
companions (internals.py lines 582-585). -/
def headerRowOf (keys : List (List Char)) : List (Option (List Char)) :=
  (keys.map (fun k => [some k, some (mvMark ++ k)])).flatten

/-- One encoded record row: for each fieldname the `(value, companion)` pair
of `_encode_value`, flattened (internals.py lines 588-589). -/
def rowOf (keys : List (List Char)) (r : PyRecord) : List (Option (List Char)) :=
  (keys.map (fun k =>
    [(encodeValue (recordGet r k)).1, (encodeValue (recordGet r k)).2])).flatten

/-- `RecordWriter.write_record` (internals.py lines 578-594): validity check;
lazily write the header row and latch the fieldnames from the first record;
append the encoded row; bump the record counter; flush partially when the
counter reaches `maxresultrows`. -/
def writeRecord (w : WriterState) (r : PyRecord) : Except String WriterState :=
  match ensureValidity w with
  | .error e => .error e
  | .ok _ =>
    let w₁ :=
      match w.fieldnames with
      | none =>
        { w with buffer := w.buffer ++ [headerRowOf (r.map Prod.fst)],
                 fieldnames := some (r.map Prod.fst) }
      | some _ => w
    let w₂ := { w₁ with buffer := w₁.buffer ++ [rowOf (w₁.fieldnames.getD []) r],
                        recordCount := w₁.recordCount + 1 }
    if w₂.maxresultrows ≤ w₂.recordCount then flushV2 w₂ none (some true)
    else .ok w₂

/-- Write a batch of records in order, stopping at the first error. -/
def writeRecords : WriterState → List PyRecord → Except String WriterState
  | w, [] => .ok w
  | w, r :: rs =>
    match writeRecord w r with
    | .error e => .error e
    | .ok w' => writeRecords w' rs

/-- The C3 scenario: a writer with `maxresultrows = 10`, a batch of records,
then a final `flush(finished=True)`. -/
def runMax10Scenario (recs : List PyRecord) : Except String WriterState :=
  match writeRecords (freshWriter 10) recs with
  | .error e => .error e
  | .ok w => flushV2 w (some true) none

/-- C5 counterexample: `flush(finished=True)` on a writer with nothing
buffered writes no chunk at all — it only marks the writer closed — whereas
the claim requires a chunk whenever either flag is set. -/
theorem claim_C5_counterexample :
    flushV2 (freshWriter 50000) (some true) none
      = .ok { freshWriter 50000 with finishedFlag := true }
    ∧ ({ freshWriter 50000 with finishedFlag := true } : WriterState).out = [] :=
  ⟨rfl, rfl⟩

/-- C5 (amended): `flush(finished, partial)` emits nothing whenever no records
and no inspector entries are buffered — *regardless of the flags*, which only
set the closed state; when records or inspector entries are buffered it emits
exactly one chunk whose metadata carries the non-absent parts of
`{inspector, finished, partial}` and whose body is the buffered rows, then
clears the buffer, the inspector, the record counter (and the latched
fieldnames). -/
theorem claim_C5_flush_cases (w : WriterState) (fin par : Option Bool)
    (hopen : w.finishedFlag = false) (hmx : ¬(fin.isSome ∧ par.isSome)) :
    (w.recordCount = 0 ∧ w.inspector = [] →
      flushV2 w fin par = .ok { w with finishedFlag := decide (fin = some true) })
    ∧ (w.recordCount > 0 ∨ w.inspector ≠ [] →
      flushV2 w fin par = .ok { w with
        totalCount := w.totalCount + w.recordCount,
        chunkCount := w.chunkCount + 1,
        out := w.out ++ [⟨dropAbsent (flushMeta w fin par), w.buffer⟩],
        buffer := [], inspector := [], recordCount := 0, fieldnames := none,
        finishedFlag := decide (fin = some true) }) := by
  have hval : ensureValidity w = .ok () := by
    unfold ensureValidity
    rw [hopen]
    rfl
  unfold flushV2
  rw [if_neg hmx, hval]
  refine ⟨fun hz => ?_, fun hnz => ?_⟩
  · rw [if_neg (by simp [hz.1, hz.2])]
  · rw [if_pos hnz]
    rw [show structWriteChunk (flushMeta w fin par) w.buffer
        = .ok (some ⟨dropAbsent (flushMeta w fin par), w.buffer⟩) by
      unfold structWriteChunk
      rw [if_neg (by simp [flushMeta])]]
    rfl

/-- Witness for the amended C5: flushing a writer holding one inspector
message and no records emits exactly one chunk carrying the inspector and an
empty body, then clears the inspector. -/
theorem claim_C5_flush_cases_witness :
    flushV2 { freshWriter 10 with
        inspector := [("messages", .messages [("ERROR", "x")])] } none none
      = .ok ⟨10, none, [], [], 0, 1, 0, false,
          [⟨[("inspector", .inspector [("messages", .messages [("ERROR", "x")])])],
            []⟩]⟩ := by
  have h := claim_C5_flush_cases
    { freshWriter 10 with inspector := [("messages", .messages [("ERROR", "x")])] }
    none none (by decide) (by decide)
  exact h.2 (by simp)

/-- C3: with `maxresultrows = 10`, writing any 12 records and then flushing
with `finished=True` produces exactly two chunks: a partial chunk whose body
is the header row plus the first 10 record rows, then a final chunk
(`finished=true`) whose body is a fresh header row plus the remaining 2
record rows; afterwards every `write_record` and every `flush` raises. -/
theorem claim_C3_twelve_records (recs : List PyRecord) (h : recs.length = 12) :
    ∃ c₁ c₂ w,
      runMax10Scenario recs = .ok w
      ∧ w.out = [c₁, c₂]
      ∧ c₁.meta = [("partial", .flag true)] ∧ c₁.body.length = 11
      ∧ c₂.meta = [("finished", .flag true)] ∧ c₂.body.length = 3
      ∧ (∀ r, writeRecord w r = .error "I/O operation on closed record writer")
      ∧ (∀ fin par, ∃ e, flushV2 w fin par = .error e) := by
  rcases recs with _ | ⟨r1, recs⟩
  · simp at h
  rcases recs with _ | ⟨r2, recs⟩
  · simp at h
  rcases recs with _ | ⟨r3, recs⟩
  · simp at h
  rcases recs with _ | ⟨r4, recs⟩
  · simp at h
  rcases recs with _ | ⟨r5, recs⟩
  · simp at h
  rcases recs with _ | ⟨r6, recs⟩
  · simp at h
  rcases recs with _ | ⟨r7, recs⟩
  · simp at h
  rcases recs with _ | ⟨r8, recs⟩
  · simp at h
  rcases recs with _ | ⟨r9, recs⟩
  · simp at h
  rcases recs with _ | ⟨r10, recs⟩
  · simp at h
  rcases recs with _ | ⟨r11, recs⟩
  · simp at h
  rcases recs with _ | ⟨r12, recs⟩
  · simp at h
  have hnil : recs = [] := by
    simpa using h
  subst hnil
  refine ⟨⟨[("partial", .flag true)],
      [headerRowOf (r1.map Prod.fst),
       rowOf (r1.map Prod.fst) r1, rowOf (r1.map Prod.fst) r2,
       rowOf (r1.map Prod.fst) r3, rowOf (r1.map Prod.fst) r4,
       rowOf (r1.map Prod.fst) r5, rowOf (r1.map Prod.fst) r6,
       rowOf (r1.map Prod.fst) r7, rowOf (r1.map Prod.fst) r8,
       rowOf (r1.map Prod.fst) r9, rowOf (r1.map Prod.fst) r10]⟩,
    ⟨[("finished", .flag true)],
      [headerRowOf (r11.map Prod.fst),
       rowOf (r11.map Prod.fst) r11, rowOf (r11.map Prod.fst) r12]⟩,
    ⟨10, none, [], [], 0, 2, 12, true,
      [⟨[("partial", .flag true)],
        [headerRowOf (r1.map Prod.fst),
         rowOf (r1.map Prod.fst) r1, rowOf (r1.map Prod.fst) r2,
         rowOf (r1.map Prod.fst) r3, rowOf (r1.map Prod.fst) r4,
         rowOf (r1.map Prod.fst) r5, rowOf (r1.map Prod.fst) r6,
         rowOf (r1.map Prod.fst) r7, rowOf (r1.map Prod.fst) r8,
         rowOf (r1.map Prod.fst) r9, rowOf (r1.map Prod.fst) r10]⟩,
       ⟨[("finished", .flag true)],
        [headerRowOf (r11.map Prod.fst),
         rowOf (r11.map Prod.fst) r11, rowOf (r11.map Prod.fst) r12]⟩]⟩,
    rfl, rfl, rfl, rfl, rfl, rfl, fun _ => rfl, fun fin par => ?_⟩
  by_cases hb : fin.isSome ∧ par.isSome
  · exact ⟨_, by unfold flushV2; rw [if_pos hb]⟩
  · refine ⟨"I/O operation on closed record writer", ?_⟩
    unfold flushV2
    rw [if_neg hb]
    rfl

/-- Witness for C3 at twelve concrete one-field records. -/
theorem claim_C3_twelve_records_witness :
    (List.replicate 12 ([(['a'], PyValue.scalar (.text ['v']))] : PyRecord)).length = 12
    ∧ ∃ c₁ c₂ w,
      runMax10Scenario (List.replicate 12 ([(['a'], PyValue.scalar (.text ['v']))] : PyRecord))
        = .ok w
      ∧ w.out = [c₁, c₂]
      ∧ c₁.meta = [("partial", .flag true)] ∧ c₁.body.length = 11
      ∧ c₂.meta = [("finished", .flag true)] ∧ c₂.body.length = 3
      ∧ (∀ r, writeRecord w r = .error "I/O operation on closed record writer")
      ∧ (∀ fin par, ∃ e, flushV2 w fin par = .error e) :=
  ⟨by decide, claim_C3_twelve_records _ (by decide)⟩

/-! ## Byte-level `_write_chunk` (internals.py lines 724-743) for C8 -/

/-- An output event on `ofile`: a `write` call or a `flush` call. -/
inductive OutEvent
  | write (s : List Char)
  | flushEv
deriving DecidableEq

/-- `start_line = 'chunked 1.0,' + unicode(metadata_length) + ',' +
unicode(body_length) + '\n'` (internals.py line 738). -/
def startLine (mlen blen : Nat) : List Char :=
  "chunked 1.0,".data ++ (Nat.repr mlen).data ++ [','] ++ (Nat.repr blen).data ++ ['\n']

/-- `RecordWriterV2._write_chunk` at the byte level, parameterized by the
metadata encoder (`MetadataEncoder().encode`, an external JSON encoder).
Returns the write/flush events issued and the error, if any: a truthy
metadata mapping is filtered of absent fields and encoded; if both the
encoded metadata and the body are empty, nothing is written; otherwise the
start line (carrying the exact byte lengths), the encoded metadata and the
body are written, then the stream is flushed.  A falsy (empty) metadata
mapping with a non-empty body writes the start line and then passes the
unencoded mapping to `ofile.write`, raising `TypeError`. -/
def writeChunkBytes (enc : List (String × MetaVal) → List Char)
    (metadata : List (String × Option MetaVal)) (body : List Char) :
    List OutEvent × Option String :=
  if metadata = [] then
    if body.length > 0 then
      ([.write (startLine 0 body.length)],
        some "TypeError: expected a character buffer object")
    else ([], none)
  else
    let encoded := enc (dropAbsent metadata)
    if encoded.length > 0 ∨ body.length > 0 then
      ([.write (startLine encoded.length body.length), .write encoded,
        .write body, .flushEv], none)
    else ([], none)

/-- A stand-in metadata encoder (constantly the empty JSON object); the C8
counterexample never invokes it because its metadata mapping is empty. -/
def encConst : List (String × MetaVal) → List Char := fun _ => ['\x7b', '\x7d']

/-- C8 counterexample: with an empty metadata mapping and a non-empty body,
`_write_chunk` writes the start line and then raises `TypeError` — the body
is never written and the stream is never flushed, contrary to the claim. -/
theorem claim_C8_counterexample :
    (writeChunkBytes encConst [] ['x']).2
      = some "TypeError: expected a character buffer object"
    ∧ OutEvent.flushEv ∉ (writeChunkBytes encConst [] ['x']).1
    ∧ OutEvent.write ['x'] ∉ (writeChunkBytes encConst [] ['x']).1 := by
  exact ⟨rfl, by decide, by decide⟩

/-- C8 (amended): `_write_chunk` drops absent metadata fields before
encoding; when the encoded metadata and the body are both empty it writes
nothing; when the metadata mapping is non-empty and either the encoded
metadata or the body is non-empty it writes the header line carrying the
exact encoded byte lengths, the metadata bytes, then the body bytes, and
flushes immediately; but when the metadata mapping itself is empty while the
body is not, it writes the header line and then fails with a `TypeError`
(the unencoded mapping is passed to the stream), writing no body and never
flushing. -/
theorem claim_C8_write_chunk (enc : List (String × MetaVal) → List Char)
    (md : List (String × Option MetaVal)) (body : List Char) :
    (md ≠ [] → (enc (dropAbsent md) ≠ [] ∨ body ≠ []) →
      writeChunkBytes enc md body
        = ([.write (startLine (enc (dropAbsent md)).length body.length),
            .write (enc (dropAbsent md)), .write body, .flushEv], none))
    ∧ ((md = [] ∨ enc (dropAbsent md) = []) ∧ body = [] →
      writeChunkBytes enc md body = ([], none))
    ∧ (md = [] → body ≠ [] →
      (writeChunkBytes enc md body).2
        = some "TypeError: expected a character buffer object"
      ∧ (writeChunkBytes enc md body).1 = [.write (startLine 0 body.length)]) := by
  refine ⟨fun hmd hne => ?_, fun hz => ?_, fun hmd hb => ?_⟩
  · unfold writeChunkBytes
    rw [if_neg hmd]
    rw [if_pos ?_]
    rcases hne with he | hb
    · exact Or.inl (List.length_pos.mpr he)
    · exact Or.inr (List.length_pos.mpr hb)
  · rcases hz with ⟨hmd | he, hb⟩
    · unfold writeChunkBytes
      rw [if_pos hmd, hb]
      rfl
    · by_cases hmd : md = []
      · unfold writeChunkBytes
        rw [if_pos hmd, hb]
        rfl
      · unfold writeChunkBytes
        rw [if_neg hmd, if_neg (by simp [he, hb])]
  · unfold writeChunkBytes
    rw [if_pos hmd, if_pos (List.length_pos.mpr hb)]
    exact ⟨rfl, rfl⟩

/-- Witness for the amended C8: one non-absent metadata field and an empty
body produce the full header/metadata/flush event sequence. -/
theorem claim_C8_write_chunk_witness :
    writeChunkBytes encConst [("finished", some (.flag true))] []
      = ([.write (startLine 2 0), .write ['\x7b', '\x7d'], .write [], .flushEv],
          none) :=
  (claim_C8_write_chunk encConst [("finished", some (.flag true))] []).1
    (by decide) (Or.inl (by decide))

/-! ## Option parsing and the getinfo exchange
(`SearchCommand._process_protocol_v2`, search_command.py lines 728-820;
`Option.Item` / `Option.View`, decorators.py lines 325-427).

`RecordWriter.write_message` (internals.py line 576) appends
`message_text.format(*args)`: the callers pass *pre-formatted* text and no
arguments, so the text is sent through `str.format` a second time.  With no
arguments, `format` raises on any brace that is not part of a doubled pair;
this is modelled by `pyFormat0`. -/

/-- The exception arising from a failed `str.format`: (type name, text). -/
abbrev PyExc := String × String

/-- The exception raised by a replacement field `\x7b...\x7d` evaluated with
no arguments: auto-numbered or indexed fields raise `IndexError`, named
fields raise `KeyError` (the key is the field name up to a `:` or `!`
marker). -/
def pyFieldExc (fld : List Char) : PyExc :=
  let key := fld.takeWhile (fun c => ¬(c = ':' ∨ c = '!'))
  if key = [] ∨ key.all Char.isDigit then ("IndexError", "tuple index out of range")
  else ("KeyError", "'" ++ String.mk key ++ "'")

/-- Python 2 `text.format()` with no arguments: doubled braces become single
literal braces; a replacement field raises (no arguments to fill it); an
undoubled brace raises `ValueError`. -/
def pyFormat0 : List Char → Except PyExc (List Char)
  | [] => .ok []
  | [c] =>
    if c = '\x7b' then .error ("ValueError", "Single '\x7b' encountered in format string")
    else if c = '\x7d' then .error ("ValueError", "Single '\x7d' encountered in format string")
    else .ok [c]
  | c₁ :: c₂ :: t =>
    if c₁ = '\x7b' then
      if c₂ = '\x7b' then (pyFormat0 t).map ('\x7b' :: ·)
      else if ('\x7d' : Char) ∈ c₂ :: t then
        .error (pyFieldExc ((c₂ :: t).takeWhile (fun c => ¬ c = '\x7d')))
      else .error ("ValueError", "Single '\x7b' encountered in format string")
    else if c₁ = '\x7d' then
      if c₂ = '\x7d' then (pyFormat0 t).map ('\x7d' :: ·)
      else .error ("ValueError", "Single '\x7d' encountered in format string")
    else (pyFormat0 (c₂ :: t)).map (c₁ :: ·)

/-- Text containing no brace characters (such text passes `format()`
unchanged). -/
abbrev cleanChars (s : List Char) : Prop :=
  ∀ c ∈ s, ¬(c = '\x7b' ∨ c = '\x7d')

theorem pyFormat0_clean : ∀ (s : List Char), cleanChars s → pyFormat0 s = .ok s
  | [], _ => rfl
  | [c], h => by
    have := h c (by simp)
    simp only [pyFormat0]
    rw [if_neg (fun e => this (Or.inl e)), if_neg (fun e => this (Or.inr e))]
  | c₁ :: c₂ :: t, h => by
    have h₁ := h c₁ (by simp)
    have ht : cleanChars (c₂ :: t) := fun c hc => h c (by simp [hc])
    simp only [pyFormat0]
    rw [if_neg (fun e => h₁ (Or.inl e)), if_neg (fun e => h₁ (Or.inr e)),
      pyFormat0_clean (c₂ :: t) ht]
    rfl

/-- One declared option, viewed per instance (`Option.Item`, decorators.py
lines 325-376): name, required flag, validator (`none` = raises
`ValueError`), default, current value, `is_set`. -/
structure OptItem where
  name : List Char
  required : Bool
  validator : Option (List Char → Option (List Char))
  defaultVal : Option (List Char)
  value : Option (List Char)
  isSet : Bool

/-- `Option.View.reset` (decorators.py lines 421-423): every option back to
its default, unset. -/
def resetOptions (opts : List OptItem) : List OptItem :=
  opts.map (fun o => { o with value := o.defaultVal, isSet := false })

/-- `arg.split('=', 1)` restricted to the two-part case: the text before the
first `=` and everything after it; `none` when the argument has no `=`. -/
def splitEq1 (s : List Char) : Option (List Char × List Char) :=
  if ('=' : Char) ∈ s then
    some (s.takeWhile (fun c => ¬ c = '='), (s.dropWhile (fun c => ¬ c = '=')).tail)
  else none

/-- `self.options[name]`: the first declared option with the given name. -/
def lookupOpt (opts : List OptItem) (n : List Char) : Option OptItem :=
  opts.find? (fun o => decide (o.name = n))

/-- Store an updated option item back into the view, in place. -/
def replaceOpt : List OptItem → OptItem → List OptItem
  | [], _ => []
  | o :: t, o' => if o.name = o'.name then o' :: t else o :: replaceOpt t o'

/-- `option.value = value` (decorators.py lines 369-372 with the setter built
on lines 295-298): validate — `ValueError` yields `none` — then store and
mark set. -/
def setOption (o : OptItem) (v : List Char) : Option OptItem :=
  match o.validator with
  | none => some { o with value := some v, isSet := true }
  | some f => (f v).map (fun v' => { o with value := some v', isSet := true })

/-- The mutable state of the argument-parsing loop (search_command.py lines
730-758): fieldnames, the option view, the error counter, and the inspector
message list of the record writer. -/
structure ParseState where
  fieldnames : List (List Char)
  opts : List OptItem
  errorCount : Nat
  messages : List (String × List Char)

/-- `RecordWriter.write_message` (internals.py lines 574-576): the text is
passed through `format()` once more; on success the (unchanged, for
brace-free text) result is appended to the `messages` inspector entry, on
failure the exception propagates and nothing is appended. -/
def writeMessage (msgs : List (String × List Char)) (typ : String)
    (text : List Char) : Except PyExc (List (String × List Char)) :=
  match pyFormat0 text with
  | .ok t => .ok (msgs ++ [(typ, t)])
  | .error e => .error e

/-- One iteration of the argument loop (search_command.py lines 739-757).  An
exception from `write_message` aborts the loop carrying the unchanged state. -/
def processArg (ois : OptItem → List Char) (st : ParseState) (arg : List Char) :
    Except (ParseState × PyExc) ParseState :=
  match splitEq1 arg with
  | none => .ok { st with fieldnames := st.fieldnames ++ [arg] }
  | some (name, value) =>
    match lookupOpt st.opts name with
    | none =>
      match writeMessage st.messages "ERROR"
          ("Unrecognized option: ".data ++ name ++ '=' :: value) with
      | .ok msgs => .ok { st with messages := msgs, errorCount := st.errorCount + 1 }
      | .error e => .error (st, e)
    | some o =>
      match setOption o value with
      | some o' => .ok { st with opts := replaceOpt st.opts o' }
      | none =>
        match writeMessage st.messages "ERROR" ("Illegal value: ".data ++ ois o) with
        | .ok msgs => .ok { st with messages := msgs, errorCount := st.errorCount + 1 }
        | .error e => .error (st, e)

/-- The whole argument loop; stops at the first exception. -/
def runArgs (ois : OptItem → List Char) :
    ParseState → List (List Char) → ParseState × Option PyExc
  | st, [] => (st, none)
  | st, a :: rest =>
    match processArg ois st a with
    | .ok st' => runArgs ois st' rest
    | .error (st', e) => (st', some e)

/-- `Option.View.get_missing` (decorators.py lines 410-412): names of the
required options still unset, or `None` when there are none. -/
def getMissing (opts : List OptItem) : Option (List (List Char)) :=
  let missing := (opts.filter (fun o => o.required && !o.isSet)).map (·.name)
  if missing.isEmpty then none else missing

/-- `', '.join(names)`. -/
def joinComma : List (List Char) → List Char
  | [] => []
  | [x] => x
  | x :: y :: t => x ++ ", ".data ++ joinComma (y :: t)

/-- The missing-options message (search_command.py lines 763-766). -/
def missingMessage (ms : List (List Char)) : List Char :=
  if ms.length = 1 then
    "A value for \"".data ++ ms.headI ++ "\" is required".data
  else
    "Values for these required options are missing: ".data ++ joinComma ms

/-- The missing-options check (search_command.py lines 760-767). -/
def checkMissingE (st : ParseState) : Except (ParseState × PyExc) ParseState :=
  match getMissing st.opts with
  | none => .ok st
  | some ms =>
    match writeMessage st.messages "ERROR" (missingMessage ms) with
    | .ok msgs => .ok { st with messages := msgs, errorCount := st.errorCount + 1 }
    | .error e => .error (st, e)

/-- `RecordWriterV2.write_metadata` (internals.py lines 708-714): one chunk
whose metadata is the rendered configuration items followed by the inspector
(absent when empty), with an empty body.  The metadata mapping always has at
least the inspector key, so `_write_chunk` always writes the chunk. -/
def metadataReply (cfg : List (String × MetaVal)) (msgs : List (String × List Char)) :
    V2Chunk :=
  ⟨dropAbsent ((cfg.map (fun kv => (kv.1, some kv.2)))
      ++ [("inspector",
        if msgs ≠ [] then
          some (.inspector [("messages", .messages (msgs.map (fun m => (m.1, String.mk m.2))))])
        else none)]),
    []⟩

/-- How the getinfo exchange ends: fall through to the execution phase, exit
with a status code, or die on an exception that escaped the handlers. -/
inductive GetinfoOutcome
  | proceed
  | exited (code : Nat)
  | crashed (exc : PyExc)
deriving DecidableEq

/-- The observable result of the getinfo exchange: reply chunks written,
outcome, final inspector messages. -/
structure GetinfoResult where
  replies : List V2Chunk
  outcome : GetinfoOutcome
  messages : List (String × List Char)

/-- The bare `except:` handler (search_command.py lines 817-820):
`_report_unexpected_error` writes one error message built from the exception
(modelled by `rmsg`, lines 991-1004) — if that write itself raises, the new
exception escapes and no reply is written; otherwise the reply chunk is
written and the process exits with status 1. -/
def afterUnexpected (cfg : List (String × MetaVal)) (rmsg : PyExc → List Char)
    (st : ParseState) (exc : PyExc) : GetinfoResult :=
  match writeMessage st.messages "ERROR" (rmsg exc) with
  | .ok msgs => ⟨[metadataReply cfg msgs], .exited 1, msgs⟩
  | .error e => ⟨[], .crashed e, st.messages⟩

/-- The getinfo exchange of `_process_protocol_v2` (search_command.py lines
728-820) after a well-formed getinfo chunk: reset options, parse the
arguments, check required options, build the configuration (rendered items
`cfg`), then — on parse errors, via the `SystemExit` handler — write exactly
one reply chunk; the base `prepare()` is a no-op (line 497-508) and
`record`/`show_configuration` are at their `False` defaults. -/
def getinfoExchange (ois : OptItem → List Char) (opts : List OptItem)
    (args : List (List Char)) (cfg : List (String × MetaVal))
    (rmsg : PyExc → List Char) : GetinfoResult :=
  match runArgs ois ⟨[], resetOptions opts, 0, []⟩ args with
  | (st, some exc) => afterUnexpected cfg rmsg st exc
  | (st, none) =>
    match checkMissingE st with
    | .error (st', exc) => afterUnexpected cfg rmsg st' exc
    | .ok st' =>
      if st'.errorCount > 0 then
        ⟨[metadataReply cfg st'.messages], .exited 1, st'.messages⟩
      else
        ⟨[metadataReply cfg st'.messages], .proceed, st'.messages⟩

/-- The message built by `_report_unexpected_error` (search_command.py line
1001): `'{0} at "{1}", line {2:d} : {3}'` filled with the exception type, the
reporting location, and the exception text. -/
def reportMsgModel (e : PyExc) : List Char :=
  e.1.data ++ " at \"search_command.py\", line 754 : ".data ++ e.2.data

/-! ### Lemmas for the getinfo exchange -/

theorem cleanChars_mono {s t : List Char} (h : cleanChars t) (hsub : s ⊆ t) :
    cleanChars s :=
  fun c hc => h c (hsub hc)

theorem cleanChars_append {a b : List Char} (ha : cleanChars a) (hb : cleanChars b) :
    cleanChars (a ++ b) := by
  intro c hc
  rcases List.mem_append.mp hc with h | h
  · exact ha c h
  · exact hb c h

theorem takeWhile_subset' (p : Char → Bool) : ∀ l : List Char, l.takeWhile p ⊆ l
  | [] => by simp
  | c :: t => by
    by_cases h : p c
    · rw [List.takeWhile_cons, if_pos h]
      exact List.cons_subset_cons c (takeWhile_subset' p t)
    · rw [List.takeWhile_cons, if_neg h]
      exact List.nil_subset _

theorem dropWhile_subset' (p : Char → Bool) : ∀ l : List Char, l.dropWhile p ⊆ l
  | [] => by simp
  | c :: t => by
    by_cases h : p c
    · rw [List.dropWhile_cons, if_pos h]
      exact List.subset_cons_of_subset c (dropWhile_subset' p t)
    · rw [List.dropWhile_cons, if_neg h]
      exact List.Subset.refl _

theorem writeMessage_clean (msgs : List (String × List Char)) (typ : String)
    (text : List Char) (h : cleanChars text) :
    writeMessage msgs typ text = .ok (msgs ++ [(typ, text)]) := by
  unfold writeMessage
  rw [pyFormat0_clean text h]

theorem replaceOpt_names : ∀ (l : List OptItem) (o' : OptItem),
    (replaceOpt l o').map (·.name) = l.map (·.name)
  | [], _ => rfl
  | o :: t, o' => by
    by_cases h : o.name = o'.name
    · simp [replaceOpt, h]
    · simp [replaceOpt, h, replaceOpt_names t o']

theorem splitEq1_parts (a name value : List Char)
    (h : splitEq1 a = some (name, value)) : name ⊆ a ∧ value ⊆ a := by
  unfold splitEq1 at h
  by_cases he : ('=' : Char) ∈ a
  · rw [if_pos he] at h
    injection h with h
    injection h with h₁ h₂
    subst h₁
    subst h₂
    exact ⟨takeWhile_subset' _ a,
      List.Subset.trans (List.tail_subset _) (dropWhile_subset' _ a)⟩
  · rw [if_neg he] at h
    cases h

theorem processArg_ok_clean (ois : OptItem → List Char) (st : ParseState)
    (a : List Char) (ha : cleanChars a) (hois : ∀ o, cleanChars (ois o)) :
    ∃ st', processArg ois st a = .ok st'
      ∧ st'.opts.map (·.name) = st.opts.map (·.name) := by
  unfold processArg
  cases hsp : splitEq1 a with
  | none => exact ⟨_, rfl, rfl⟩
  | some nv =>
    obtain ⟨name, value, rfl⟩ : ∃ n v, nv = (n, v) := ⟨nv.1, nv.2, rfl⟩
    obtain ⟨hn, hv⟩ := splitEq1_parts a name value hsp
    dsimp only
    cases hlk : lookupOpt st.opts name with
    | none =>
      dsimp only
      have htext : cleanChars ("Unrecognized option: ".data ++ name ++ '=' :: value) := by
        refine cleanChars_append
          (cleanChars_append (by decide) (cleanChars_mono ha hn)) ?_
        intro c hc
        rcases List.mem_cons.mp hc with h | h
        · subst h; decide
        · exact ha c (hv h)
      rw [writeMessage_clean st.messages "ERROR" _ htext]
      exact ⟨_, rfl, rfl⟩
    | some o =>
      dsimp only
      cases hset : setOption o value with
      | some o' =>
        dsimp only
        exact ⟨_, rfl, replaceOpt_names st.opts o'⟩
      | none =>
        dsimp only
        have htext : cleanChars ("Illegal value: ".data ++ ois o) :=
          cleanChars_append (by decide) (hois o)
        rw [writeMessage_clean st.messages "ERROR" _ htext]
        exact ⟨_, rfl, rfl⟩

theorem runArgs_ok_clean (ois : OptItem → List Char) :
    ∀ (args : List (List Char)) (st : ParseState),
    (∀ a ∈ args, cleanChars a) → (∀ o, cleanChars (ois o)) →
    (runArgs ois st args).2 = none
      ∧ (runArgs ois st args).1.opts.map (·.name) = st.opts.map (·.name)
  | [], _, _, _ => ⟨rfl, rfl⟩
  | a :: rest, st, hargs, hois => by
    obtain ⟨st', hok, hnames⟩ :=
      processArg_ok_clean ois st a (hargs a (by simp)) hois
    have ih := runArgs_ok_clean ois rest st' (fun x hx => hargs x (by simp [hx])) hois
    unfold runArgs
    rw [hok]
    exact ⟨ih.1, by rw [ih.2, hnames]⟩

/-- The parse state carried out of a `processArg` step, whether it succeeded
or raised. -/
def stOf : Except (ParseState × PyExc) ParseState → ParseState
  | .ok st => st
  | .error (st, _) => st

/-- Name preservation of one argument step, independent of success. -/
theorem processArg_names (ois : OptItem → List Char) (st : ParseState)
    (a : List Char) :
    (stOf (processArg ois st a)).opts.map (·.name) = st.opts.map (·.name) := by
  unfold processArg
  cases hsp : splitEq1 a with
  | none => rfl
  | some nv =>
    obtain ⟨name, value, rfl⟩ : ∃ n v, nv = (n, v) := ⟨nv.1, nv.2, rfl⟩
    dsimp only
    cases hlk : lookupOpt st.opts name with
    | none =>
      dsimp only
      cases hwm : writeMessage st.messages "ERROR"
          ("Unrecognized option: ".data ++ name ++ '=' :: value) with
      | ok msgs => rfl
      | error e => rfl
    | some o =>
      dsimp only
      cases hset : setOption o value with
      | some o' => exact replaceOpt_names st.opts o'
      | none =>
        dsimp only
        cases hwm : writeMessage st.messages "ERROR" ("Illegal value: ".data ++ ois o) with
        | ok msgs => rfl
        | error e => rfl

theorem runArgs_names (ois : OptItem → List Char) :
    ∀ (args : List (List Char)) (st : ParseState),
    (runArgs ois st args).1.opts.map (·.name) = st.opts.map (·.name)
  | [], _ => rfl
  | a :: rest, st => by
    have hn := processArg_names ois st a
    unfold runArgs
    cases hpa : processArg ois st a with
    | ok st' =>
      rw [hpa] at hn
      rw [runArgs_names ois rest st']
      exact hn
    | error p =>
      obtain ⟨st', e⟩ := p
      rw [hpa] at hn
      exact hn

theorem resetOptions_names (opts : List OptItem) :
    (resetOptions opts).map (·.name) = opts.map (·.name) := by
  simp [resetOptions]

theorem getMissing_names (opts : List OptItem) (ms : List (List Char))
    (h : getMissing opts = some ms) : ∀ n ∈ ms, n ∈ opts.map (·.name) := by
  unfold getMissing at h
  by_cases he : ((opts.filter (fun o => o.required && !o.isSet)).map (·.name)).isEmpty
  · rw [if_pos he] at h
    cases h
  · rw [if_neg he] at h
    injection h with h
    subst h
    intro n hn
    obtain ⟨o, ho, rfl⟩ := List.mem_map.mp hn
    exact List.mem_map.mpr ⟨o, List.mem_of_mem_filter ho, rfl⟩

theorem joinComma_clean : ∀ (ms : List (List Char)),
    (∀ n ∈ ms, cleanChars n) → cleanChars (joinComma ms)
  | [], _ => by intro c hc; simp [joinComma] at hc
  | [x], h => by simpa [joinComma] using h x (by simp)
  | x :: y :: t, h => by
    unfold joinComma
    exact cleanChars_append (cleanChars_append (h x (by simp)) (by decide))
      (joinComma_clean (y :: t) (fun n hn => h n (by simp [List.mem_cons.mp hn])))

theorem missingMessage_clean (ms : List (List Char)) (h : ∀ n ∈ ms, cleanChars n) :
    cleanChars (missingMessage ms) := by
  unfold missingMessage
  by_cases hl : ms.length = 1
  · rw [if_pos hl]
    refine cleanChars_append (cleanChars_append (by decide) ?_) (by decide)
    cases ms with
    | nil => simp at hl
    | cons x t => exact h x (by simp [List.headI])
  · rw [if_neg hl]
    exact cleanChars_append (by decide) (joinComma_clean ms h)

theorem dropAbsent_somes (cfg : List (String × MetaVal)) :
    dropAbsent (cfg.map (fun kv => (kv.1, some kv.2))) = cfg := by
  induction cfg with
  | nil => rfl
  | cons kv t ih => simp [dropAbsent] at *; exact ih

theorem metadataReply_shape (cfg : List (String × MetaVal))
    (msgs : List (String × List Char)) :
    ∃ insp, metadataReply cfg msgs = ⟨cfg ++ insp, []⟩ := by
  unfold metadataReply dropAbsent
  rw [List.filterMap_append]
  exact ⟨_, by rw [show (List.map (fun kv => (kv.1, some kv.2)) cfg).filterMap
      (fun kv => kv.2.map (fun v => (kv.1, v))) = cfg from dropAbsent_somes cfg]⟩

/-- The argument used by the C4 counterexample: an unrecognized option whose
value is a single opening brace. -/
def argBrace : List Char := "bogus=".data ++ ['\x7b']

/-- C4 counterexample: with the argument `bogus={`, reporting the
unrecognized-option error re-formats the message text, which raises
`ValueError` on the stray brace; the handler's own report message embeds that
brace and raises again, so the exchange dies with *zero* reply chunks
written. -/
theorem claim_C4_counterexample :
    (getinfoExchange (fun _ => []) [] [argBrace] [] reportMsgModel).replies = []
    ∧ (getinfoExchange (fun _ => []) [] [argBrace] [] reportMsgModel).outcome
        = .crashed ("ValueError", "Single '\x7b' encountered in format string")
    ∧ ([] : List V2Chunk).length ≠ 1 :=
  ⟨rfl, rfl, by decide⟩

/-- C4 (amended): during the getinfo exchange, exactly one negotiation reply
chunk is written — empty body, the rendered configuration settings (followed
only by the inspector) as metadata — regardless of whether option-parsing
errors were reported beforehand, *provided* the reported message texts format
cleanly: the argument strings, the option names, and the option displays
contain no brace characters.  (An argument value with a stray brace instead
crashes message formatting and no reply is written.) -/
theorem claim_C4_one_reply (ois : OptItem → List Char) (opts : List OptItem)
    (args : List (List Char)) (cfg : List (String × MetaVal))
    (rmsg : PyExc → List Char)
    (hargs : ∀ a ∈ args, cleanChars a)
    (hnames : ∀ o ∈ opts, cleanChars o.name)
    (hois : ∀ o, cleanChars (ois o)) :
    ∃ insp, (getinfoExchange ois opts args cfg rmsg).replies
      = [⟨cfg ++ insp, []⟩] := by
  obtain ⟨hc, hnm⟩ := runArgs_ok_clean ois args ⟨[], resetOptions opts, 0, []⟩ hargs hois
  obtain ⟨st, hrun⟩ : ∃ st, runArgs ois ⟨[], resetOptions opts, 0, []⟩ args
      = (st, none) :=
    ⟨(runArgs ois ⟨[], resetOptions opts, 0, []⟩ args).1, by
      rw [← hc]⟩
  have hstnames : st.opts.map (·.name) = opts.map (·.name) := by
    rw [hrun] at hnm
    simpa [resetOptions_names] using hnm
  unfold getinfoExchange
  rw [hrun]
  dsimp only
  cases hm : getMissing st.opts with
  | none =>
    have hck : checkMissingE st = .ok st := by
      unfold checkMissingE
      rw [hm]
    rw [hck]
    dsimp only
    by_cases he : st.errorCount > 0
    · rw [if_pos he]
      exact ⟨_, by rw [(metadataReply_shape cfg st.messages).choose_spec]⟩
    · rw [if_neg he]
      exact ⟨_, by rw [(metadataReply_shape cfg st.messages).choose_spec]⟩
  | some ms =>
    have hmsclean : ∀ n ∈ ms, cleanChars n := by
      intro n hn
      have := getMissing_names st.opts ms hm n hn
      rw [hstnames] at this
      obtain ⟨o, ho, rfl⟩ := List.mem_map.mp this
      exact hnames o ho
    have hck : checkMissingE st
        = .ok { st with messages := st.messages ++ [("ERROR", missingMessage ms)],
                        errorCount := st.errorCount + 1 } := by
      unfold checkMissingE
      rw [hm]
      dsimp only
      rw [writeMessage_clean _ _ _ (missingMessage_clean ms hmsclean)]
    rw [hck]
    dsimp only
    rw [if_pos (Nat.succ_pos _)]
    exact ⟨_, by rw [(metadataReply_shape cfg _).choose_spec]⟩

/-- Witness for the amended C4: one required option, no arguments (so a
missing-option error is reported), one rendered setting — still exactly one
reply chunk with empty body and the settings leading the metadata. -/
theorem claim_C4_one_reply_witness :
    ∃ insp,
      (getinfoExchange (fun _ => [])
        [⟨"total".data, true, none, none, none, false⟩] []
        [("type", MetaVal.raw "streaming")] reportMsgModel).replies
      = [⟨[("type", MetaVal.raw "streaming")] ++ insp, []⟩] :=
  claim_C4_one_reply (fun _ => []) [⟨"total".data, true, none, none, none, false⟩]
    [] [("type", MetaVal.raw "streaming")] reportMsgModel
    (fun a ha => by simp at ha)
    (fun o ho => by
      rcases List.mem_singleton.mp ho with rfl
      decide)
    (fun o => by intro c hc; simp at hc)

/-- C6: when argument parsing completes with `N ≥ 1` required options unset,
an inspector error message is produced naming all of them (comma-joined for
`N > 1`, per `missingMessage`), and the process exits with status 1 ≠ 0.
Option names are identifier-like (`option-name = alpha *(alpha/digit/"_")`,
internals.py line 158), hence brace-free, which the `hnames` hypothesis
records. -/
theorem claim_C6_missing_required (ois : OptItem → List Char)
    (opts : List OptItem) (args : List (List Char))
    (cfg : List (String × MetaVal)) (rmsg : PyExc → List Char)
    (ms : List (List Char))
    (hnames : ∀ o ∈ opts, cleanChars o.name)
    (hdone : (runArgs ois ⟨[], resetOptions opts, 0, []⟩ args).2 = none)
    (hmiss : getMissing (runArgs ois ⟨[], resetOptions opts, 0, []⟩ args).1.opts
      = some ms) :
    ("ERROR", missingMessage ms) ∈ (getinfoExchange ois opts args cfg rmsg).messages
    ∧ (getinfoExchange ois opts args cfg rmsg).outcome = .exited 1
    ∧ (1 : Nat) ≠ 0 := by
  obtain ⟨st, hrun⟩ : ∃ st, runArgs ois ⟨[], resetOptions opts, 0, []⟩ args
      = (st, none) :=
    ⟨(runArgs ois ⟨[], resetOptions opts, 0, []⟩ args).1, by
      rw [← hdone]⟩
  rw [hrun] at hmiss
  dsimp only at hmiss
  have hstnames : st.opts.map (·.name) = opts.map (·.name) := by
    have := runArgs_names ois args ⟨[], resetOptions opts, 0, []⟩
    rw [hrun] at this
    simpa [resetOptions_names] using this
  have hmsclean : ∀ n ∈ ms, cleanChars n := by
    intro n hn
    have := getMissing_names st.opts ms hmiss n hn
    rw [hstnames] at this
    obtain ⟨o, ho, rfl⟩ := List.mem_map.mp this
    exact hnames o ho
  have hck : checkMissingE st
      = .ok { st with messages := st.messages ++ [("ERROR", missingMessage ms)],
                      errorCount := st.errorCount + 1 } := by
    unfold checkMissingE
    rw [hmiss]
    dsimp only
    rw [writeMessage_clean _ _ _ (missingMessage_clean ms hmsclean)]
  unfold getinfoExchange
  rw [hrun]
  dsimp only
  rw [hck]
  dsimp only
  rw [if_pos (Nat.succ_pos _)]
  exact ⟨by simp, rfl, by decide⟩

/-- Witness for C6: two required options, no arguments: the message naming
both (comma-joined) is produced and the exchange exits with status 1. -/
theorem claim_C6_missing_required_witness :
    ("ERROR", missingMessage ["total".data, "fieldname".data])
      ∈ (getinfoExchange (fun _ => [])
          [⟨"total".data, true, none, none, none, false⟩,
           ⟨"fieldname".data, true, none, none, none, false⟩]
          [] [] reportMsgModel).messages
    ∧ (getinfoExchange (fun _ => [])
        [⟨"total".data, true, none, none, none, false⟩,
         ⟨"fieldname".data, true, none, none, none, false⟩]
        [] [] reportMsgModel).outcome = .exited 1
    ∧ (1 : Nat) ≠ 0 :=
  claim_C6_missing_required (fun _ => [])
    [⟨"total".data, true, none, none, none, false⟩,
     ⟨"fieldname".data, true, none, none, none, false⟩]
    [] [] reportMsgModel ["total".data, "fieldname".data]
    (fun o ho => by
      rcases List.mem_cons.mp ho with rfl | ho
      · decide
      · rcases List.mem_singleton.mp ho with rfl
        decide)
    rfl (by decide)

/-! ## Streaming configuration settings (streaming_command.py lines 102-176,
search_command.py lines 1010-1078, decorators.py lines 117-176) — claim C9.

`SearchCommand.ConfigurationSettings` defines `__init__`, `__repr__`,
`__str__`, `fix_up`, `items` and `iteritems` — and **no `render` member** —
while `StreamingCommand.ConfigurationSettings.render` delegates to
`super().render()`.  Its `distributed`, `required_fields` and `type` members
are plain `property` objects, not `ConfigurationSetting` descriptors, so the
`getmembers(cls, isinstance(·, ConfigurationSetting))` scan in
`ConfigurationSetting.fix_up` (decorators.py lines 117-121) collects no
definitions, and `iteritems` — which builds the negotiation reply via
`items()` (internals.py line 711) — yields nothing. -/

/-- One entry of `configuration_setting_definitions`: name, supported
protocol versions, and the bound getter. -/
structure SettingDef (σ : Type) where
  name : String
  supportingProtocols : List Nat
  get : σ → Option String

/-- `SearchCommand.ConfigurationSettings.iteritems` (search_command.py lines
1072-1078): filter the definitions to those supporting the protocol version,
read each value, and drop the absent ones. -/
def searchConfigIteritems {σ : Type} (defs : List (SettingDef σ)) (version : Nat)
    (self : σ) : List (String × String) :=
  ((defs.filter (fun d => version ∈ d.supportingProtocols)).map
    (fun d => (d.name, d.get self))).filterMap
    (fun nv => nv.2.map (fun v => (nv.1, v)))

/-- The per-instance state of `StreamingCommand.ConfigurationSettings`: the
`_distributed` and `_required_fields` backing fields (class default `None`). -/
structure StreamingSettingsState where
  distributed : Option Bool
  requiredFields : Option (List String)

/-- The `distributed` getter (streaming_command.py lines 109-115):
`getattr(self, '_distributed', None)`. -/
def streamingDistributed (s : StreamingSettingsState) : Option Bool :=
  s.distributed

/-- The `type` getter (streaming_command.py lines 144-152): unconditionally
`'streaming'` (its docstring promises a computed `'stateful'`, which the body
does not implement). -/
def streamingTypeSetting (_ : StreamingSettingsState) : String :=
  "streaming"

/-- `configuration_setting_definitions` for
`StreamingCommand.ConfigurationSettings`: the `fix_up` scan finds no
`ConfigurationSetting` descriptors (all three settings are plain properties,
and the base class declares none), so the list is empty. -/
def streamingSettingDefinitions : List (SettingDef StreamingSettingsState) :=
  []

/-- The `render` member of `SearchCommand.ConfigurationSettings`: absent
(attribute lookup fails). -/
def searchRenderMember : Option (Unit → List (String × String)) :=
  none

/-- The body of `StreamingCommand.ConfigurationSettings.render`
(streaming_command.py lines 167-175) applied to the base sequence: drop the
`distributed` item; when `distributed` is not `True`, present the `type` item
as `'stateful'`. -/
def streamingRenderTransform (distributed : Option Bool)
    (base : List (String × String)) : List (String × String) :=
  let sequence := base.filter (fun i => i.1 ≠ "distributed")
  if distributed = some true then sequence
  else sequence.map (fun i => if i.1 = "type" then (i.1, "stateful") else i)

/-- `StreamingCommand.ConfigurationSettings.render`: it begins with
`super(StreamingCommand.ConfigurationSettings, self).render()`, but the base
class has no `render`, so the call raises `AttributeError` before the
transform can run. -/
def streamingRender (s : StreamingSettingsState) :
    Except String (List (String × String)) :=
  match searchRenderMember with
  | none => .error "AttributeError: render"
  | some baseRender =>
    .ok (streamingRenderTransform (streamingDistributed s) (baseRender ()))

/-- C9 (code bug): the spec's transform — a streaming plugin not marked
distributed presents its stage as `stateful` — exists in the code
(`streamingRenderTransform`, last conjunct) but never reaches the negotiation
reply: the reply is built from `items()`/`iteritems`, whose setting
definitions are empty, so no `type` item (let alone `'stateful'`) is ever
rendered; the `type` getter itself is constantly `'streaming'`; and calling
`render` raises `AttributeError` because the base class defines no `render`. -/
theorem claim_C9_streaming_stateful_never_rendered
    (s : StreamingSettingsState) (version : Nat) :
    streamingTypeSetting s = "streaming"
    ∧ searchConfigIteritems streamingSettingDefinitions version s = []
    ∧ streamingRender s = .error "AttributeError: render"
    ∧ streamingRenderTransform none [("type", "streaming")]
        = [("type", "stateful")]
    ∧ streamingRenderTransform (some false) [("type", "streaming")]
        = [("type", "stateful")] := by
  exact ⟨rfl, rfl, rfl, by decide, by decide⟩

/-! ## Decoding execute-chunk bodies into records
(`SearchCommand._records`, search_command.py lines 944-987) — claim C10.

The chunk body's CSV is abstracted to a header row of fieldnames plus value
rows.  When no fieldname carries the `__mv_` marker the fast path zips names
and values straight into an `OrderedDict`; otherwise the careful loop treats
companion columns. -/

/-- A decoded record field value: a scalar cell or a decoded multi-value
list. -/
inductive RVal
  | cell (s : List Char)
  | mvlist (xs : List (List Char))
deriving DecidableEq

/-- Ordered-dictionary lookup (first match). -/
def odictLookup (r : List (List Char × RVal)) (k : List Char) : Option RVal :=
  (r.find? (fun kv => decide (kv.1 = k))).map (·.2)

/-- Ordered-dictionary `__setitem__`: update in place, else append. -/
def odictSet : List (List Char × RVal) → List Char → RVal → List (List Char × RVal)
  | [], k, v => [(k, v)]
  | kv :: t, k, v => if kv.1 = k then (k, v) :: t else kv :: odictSet t k v

/-- One step of the careful row loop (search_command.py lines 981-986): a
companion column with a non-empty value stores the decoded list under the
stripped name (overwriting); an empty companion is skipped; a plain column is
stored only if the field is not yet present. -/
def foldPair (r : List (List Char × RVal)) (kv : List Char × List Char) :
    List (List Char × RVal) :=
  if mvMark.isPrefixOf kv.1 then
    if kv.2 ≠ [] then odictSet r (kv.1.drop 5) (.mvlist (decodeList kv.2)) else r
  else if (odictLookup r kv.1).isSome then r
  else r ++ [(kv.1, .cell kv.2)]

/-- Decode one row on the careful path. -/
def decodeRowMv (fs : List (List Char)) (vs : List (List Char)) :
    List (List Char × RVal) :=
  (fs.zip vs).foldl foldPair []

/-- Decode one row on the fast path (`OrderedDict(izip(fieldnames, values))`,
line 976): sequential insertion, the last value of a duplicated key wins. -/
def decodeRowPlain (fs : List (List Char)) (vs : List (List Char)) :
    List (List Char × RVal) :=
  (fs.zip vs).foldl (fun r kv => odictSet r kv.1 (.cell kv.2)) []

/-- `SearchCommand._records` body decoding for one chunk (lines 972-987):
the fast path applies iff no fieldname carries the companion marker. -/
def recordsOfBody (fs : List (List Char)) (rows : List (List (List Char))) :
    List (List (List Char × RVal)) :=
  if fs.any (fun n => mvMark.isPrefixOf n) then rows.map (decodeRowMv fs)
  else rows.map (decodeRowPlain fs)

/-- The non-empty companion values for field `f`, in column order. -/
def companionValues (f : List Char) (pairs : List (List Char × List Char)) :
    List (List Char) :=
  pairs.filterMap (fun kv => if kv.1 = mvMark ++ f ∧ kv.2 ≠ [] then some kv.2 else none)

/-- The plain-column values for field `f`, in column order. -/
def primaryValues (f : List Char) (pairs : List (List Char × List Char)) :
    List (List Char) :=
  pairs.filterMap (fun kv => if kv.1 = f then some kv.2 else none)

/-- The value the careful loop leaves for field `f`, given the value already
present in the accumulator: the last non-empty companion wins outright; else
an existing entry; else the first plain column. -/
def rowFieldValue (f : List Char) (pairs : List (List Char × List Char))
    (base : Option RVal) : Option RVal :=
  match (companionValues f pairs).getLast? with
  | some v => some (.mvlist (decodeList v))
  | none =>
    match base with
    | some v => some v
    | none => (primaryValues f pairs).head?.map .cell

theorem odictLookup_nil (f : List Char) : odictLookup [] f = none := rfl

theorem odictLookup_cons (kv : List Char × RVal) (t : List (List Char × RVal))
    (f : List Char) :
    odictLookup (kv :: t) f = if kv.1 = f then some kv.2 else odictLookup t f := by
  unfold odictLookup
  rw [List.find?_cons]
  by_cases h : kv.1 = f
  · simp [h]
  · simp [h]

theorem odictLookup_set (r : List (List Char × RVal)) (k : List Char) (v : RVal)
    (f : List Char) :
    odictLookup (odictSet r k v) f = if f = k then some v else odictLookup r f := by
  induction r with
  | nil =>
    rw [show odictSet [] k v = [(k, v)] from rfl, odictLookup_cons]
    by_cases h : f = k
    · rw [if_pos h.symm, if_pos h]
    · rw [if_neg (fun e => h e.symm), if_neg h, odictLookup_nil]
  | cons kv t ih =>
    rw [show odictSet (kv :: t) k v
        = if kv.1 = k then (k, v) :: t else kv :: odictSet t k v from rfl]
    by_cases hk : kv.1 = k
    · rw [if_pos hk, odictLookup_cons]
      by_cases hf : f = k
      · rw [if_pos hf.symm, if_pos hf]
      · rw [if_neg (fun e : k = f => hf e.symm), if_neg hf, odictLookup_cons,
          if_neg (fun e : kv.1 = f => hf (e.symm.trans hk))]
    · rw [if_neg hk, odictLookup_cons]
      by_cases hf : kv.1 = f
      · rw [if_pos hf, if_neg (fun e : f = k => hk (hf.trans e)), odictLookup_cons,
          if_pos hf]
      · rw [if_neg hf, ih, odictLookup_cons, if_neg hf]

theorem odictLookup_append_single (r : List (List Char × RVal)) (k : List Char)
    (v : RVal) (f : List Char) :
    odictLookup (r ++ [(k, v)]) f
      = match odictLookup r f with
        | some w => some w
        | none => if f = k then some v else none := by
  induction r with
  | nil =>
    rw [List.nil_append, odictLookup_cons, odictLookup_nil]
    by_cases h : f = k
    · rw [if_pos h.symm, if_pos h]
    · rw [if_neg (fun e : k = f => h e.symm), if_neg h]
  | cons kv t ih =>
    rw [List.cons_append, odictLookup_cons, odictLookup_cons]
    by_cases hf : kv.1 = f
    · rw [if_pos hf, if_pos hf]
    · rw [if_neg hf, if_neg hf]
      exact ih

theorem mvMark_drop (f : List Char) : (mvMark ++ f).drop 5 = f := by
  rw [show (5 : Nat) = mvMark.length from rfl]
  exact List.drop_left mvMark f

theorem mvMark_isPrefixOf_append (f : List Char) :
    mvMark.isPrefixOf (mvMark ++ f) = true := by
  rw [List.isPrefixOf_iff_prefix]
  exact ⟨f, rfl⟩

theorem mvMark_append_ne (f k : List Char) (hf : mvMark.isPrefixOf f = false) :
    mvMark ++ k ≠ f := by
  intro e
  rw [← e, mvMark_isPrefixOf_append] at hf
  cases hf

theorem companionValues_cons_pos (f k v : List Char)
    (rest : List (List Char × List Char)) (hk : k = mvMark ++ f) (hv : v ≠ []) :
    companionValues f ((k, v) :: rest) = v :: companionValues f rest := by
  unfold companionValues
  rw [List.filterMap_cons]
  rw [show (if (k, v).1 = mvMark ++ f ∧ (k, v).2 ≠ [] then some (k, v).2 else none)
      = some v from if_pos ⟨hk, hv⟩]

theorem companionValues_cons_neg (f k v : List Char)
    (rest : List (List Char × List Char)) (h : ¬(k = mvMark ++ f ∧ v ≠ [])) :
    companionValues f ((k, v) :: rest) = companionValues f rest := by
  unfold companionValues
  rw [List.filterMap_cons]
  rw [show (if (k, v).1 = mvMark ++ f ∧ (k, v).2 ≠ [] then some (k, v).2 else none)
      = none from if_neg h]

theorem primaryValues_cons_pos (f v : List Char)
    (rest : List (List Char × List Char)) :
    primaryValues f ((f, v) :: rest) = v :: primaryValues f rest := by
  unfold primaryValues
  rw [List.filterMap_cons]
  rw [show (if (f, v).1 = f then some (f, v).2 else none) = some v from if_pos rfl]

theorem primaryValues_cons_neg (f k v : List Char)
    (rest : List (List Char × List Char)) (h : k ≠ f) :
    primaryValues f ((k, v) :: rest) = primaryValues f rest := by
  unfold primaryValues
  rw [List.filterMap_cons]
  rw [show (if (k, v).1 = f then some (k, v).2 else none) = none from if_neg h]

theorem rowFieldValue_skip (f k v : List Char)
    (rest : List (List Char × List Char)) (base : Option RVal)
    (hc : ¬(k = mvMark ++ f ∧ v ≠ [])) (hp : k ≠ f) :
    rowFieldValue f ((k, v) :: rest) base = rowFieldValue f rest base := by
  unfold rowFieldValue
  rw [companionValues_cons_neg f k v rest hc, primaryValues_cons_neg f k v rest hp]

/-- The central characterization of the careful row loop: the value left for
a non-companion field `f` is the last non-empty companion if any, else the
value already present, else the first plain column. -/
theorem foldPair_lookup (f : List Char) (hf : mvMark.isPrefixOf f = false) :
    ∀ (pairs : List (List Char × List Char)) (r : List (List Char × RVal)),
    odictLookup (pairs.foldl foldPair r) f = rowFieldValue f pairs (odictLookup r f)
  | [], r => by
    rw [show List.foldl foldPair r [] = r from rfl]
    unfold rowFieldValue companionValues primaryValues
    cases h : odictLookup r f <;> rfl
  | (k, v) :: rest, r => by
    rw [List.foldl_cons]
    by_cases hpre : mvMark.isPrefixOf k = true
    · obtain ⟨k', rfl⟩ : ∃ k', k = mvMark ++ k' := by
        rw [List.isPrefixOf_iff_prefix] at hpre
        obtain ⟨t, ht⟩ := hpre
        exact ⟨t, ht.symm⟩
      have hstep : foldPair r (mvMark ++ k', v)
          = if v ≠ [] then
              odictSet r ((mvMark ++ k').drop 5) (.mvlist (decodeList v))
            else r := by
        unfold foldPair
        rw [if_pos (mvMark_isPrefixOf_append k')]
      by_cases hv : v ≠ []
      · rw [hstep, if_pos hv, mvMark_drop]
        by_cases hkf : k' = f
        · subst hkf
          rw [foldPair_lookup k' hf rest _, odictLookup_set, if_pos rfl]
          unfold rowFieldValue
          rw [companionValues_cons_pos k' _ v rest rfl hv]
          cases hL : companionValues k' rest with
          | nil => rfl
          | cons b l =>
            rw [List.getLast?_cons_cons]
            obtain ⟨w, hw⟩ : ∃ w, (b :: l).getLast? = some w := by
              cases h : (b :: l).getLast? with
              | none => exact absurd (List.getLast?_eq_none_iff.mp h) (by simp)
              | some w => exact ⟨w, rfl⟩
            rw [hw]
        · rw [foldPair_lookup f hf rest _, odictLookup_set,
            if_neg (fun e : f = k' => hkf e.symm)]
          exact (rowFieldValue_skip f _ v rest _
            (fun hc => hkf (List.append_cancel_left (hc.1.symm : mvMark ++ f = mvMark ++ k')).symm)
            (mvMark_append_ne f k' hf)).symm
      · rw [hstep, if_neg hv, foldPair_lookup f hf rest r]
        exact (rowFieldValue_skip f _ v rest _ (fun hc => hv hc.2)
          (mvMark_append_ne f k' hf)).symm
    · have hstep : foldPair r (k, v)
          = if (odictLookup r k).isSome then r else r ++ [(k, .cell v)] := by
        unfold foldPair
        rw [if_neg hpre]
      have hcomp : ¬(k = mvMark ++ f ∧ v ≠ []) := by
        rintro ⟨rfl, -⟩
        rw [mvMark_isPrefixOf_append] at hpre
        exact hpre rfl
      by_cases hkf : k = f
      · subst hkf
        by_cases hex : (odictLookup r k).isSome
        · rw [hstep, if_pos hex, foldPair_lookup k hf rest r]
          obtain ⟨w, hw⟩ := Option.isSome_iff_exists.mp hex
          rw [hw]
          unfold rowFieldValue
          rw [companionValues_cons_neg k k v rest hcomp]
        · rw [hstep, if_neg hex, foldPair_lookup k hf rest _,
            odictLookup_append_single]
          have hnone : odictLookup r k = none := by
            cases h : odictLookup r k
            · rfl
            · rw [h] at hex; exact absurd rfl hex
          rw [hnone]
          unfold rowFieldValue
          rw [companionValues_cons_neg k k v rest hcomp, primaryValues_cons_pos k v rest]
          rw [if_pos rfl]
          cases (companionValues k rest).getLast? <;> rfl
      · have hr' : ∀ r', foldPair r (k, v) = r' →
            odictLookup r' f = odictLookup r f := by
          intro r' he
          rw [hstep] at he
          by_cases hex : (odictLookup r k).isSome
          · rw [if_pos hex] at he
            rw [← he]
          · rw [if_neg hex] at he
            rw [← he, odictLookup_append_single]
            cases odictLookup r f with
            | none => rw [if_neg (fun e : f = k => hkf e.symm)]
            | some w => rfl
        rw [foldPair_lookup f hf rest _, hr' _ rfl]
        exact (rowFieldValue_skip f k v rest _ hcomp hkf).symm

/-- C10 counterexample: a batch with no companion column and a duplicated
fieldname `a` decodes by direct zipping, so the *last* occurrence's value is
retained, not the first as claimed. -/
theorem claim_C10_counterexample :
    recordsOfBody [['a'], ['a']] [[['1'], ['2']]]
      = [[(['a'], RVal.cell ['2'])]]
    ∧ odictLookup [(['a'], RVal.cell ['2'])] ['a'] = some (.cell ['2'])
    ∧ RVal.cell ['2'] ≠ RVal.cell ['1'] :=
  ⟨rfl, rfl, by decide⟩

/-- C10 (amended): in a batch whose header carries at least one `__mv_`
companion column, each row decodes by the careful loop, and for every
non-companion field `f`: a non-empty companion column yields the decoded
multi-value list (the last such column if several), discarding any primary
column; with no non-empty companion the first primary column's scalar is
kept (later duplicates are ignored).  In a batch with *no* companion
columns, rows are zipped directly and the last occurrence of a duplicated
fieldname wins instead. -/
theorem claim_C10_record_decoding (fs : List (List Char)) (f : List Char)
    (hmv : fs.any (fun n => mvMark.isPrefixOf n) = true)
    (hf : mvMark.isPrefixOf f = false) :
    (∀ rows, recordsOfBody fs rows = rows.map (decodeRowMv fs))
    ∧ (∀ vs, odictLookup (decodeRowMv fs vs) f = rowFieldValue f (fs.zip vs) none)
    ∧ (∀ vs v, (companionValues f (fs.zip vs)).getLast? = some v →
        odictLookup (decodeRowMv fs vs) f = some (.mvlist (decodeList v)))
    ∧ (∀ vs, companionValues f (fs.zip vs) = [] →
        odictLookup (decodeRowMv fs vs) f
          = (primaryValues f (fs.zip vs)).head?.map .cell) := by
  have hchar : ∀ vs, odictLookup (decodeRowMv fs vs) f
      = rowFieldValue f (fs.zip vs) none := by
    intro vs
    unfold decodeRowMv
    rw [foldPair_lookup f hf (fs.zip vs) []]
    rfl
  refine ⟨fun rows => ?_, hchar, fun vs v hv => ?_, fun vs hc => ?_⟩
  · unfold recordsOfBody
    rw [if_pos hmv]
  · rw [hchar vs]
    unfold rowFieldValue
    rw [hv]
  · rw [hchar vs]
    unfold rowFieldValue
    rw [hc]
    rfl

/-- Witness for the amended C10 at a concrete row with one companion column:
the companion's decoded list wins over the primary column. -/
theorem claim_C10_record_decoding_witness :
    ([['a'], mvMark ++ ['a']].any (fun n => mvMark.isPrefixOf n)) = true
    ∧ mvMark.isPrefixOf ['a'] = false
    ∧ odictLookup (decodeRowMv [['a'], mvMark ++ ['a']] [['1'], "$x$;$y$".data]) ['a']
      = some (.mvlist [['x'], ['y']]) :=
  ⟨by decide, by decide,
    by
      have h := (claim_C10_record_decoding [['a'], mvMark ++ ['a']] ['a']
        (by decide) (by decide)).2.2.1 [['1'], "$x$;$y$".data] "$x$;$y$".data
        (by decide)
      rw [h]
      rfl⟩

end Splunk
